import Mathlib

/-!
# B-tree engine (`btree.c`, `btree.h`): shallow embedding

The C program keeps a tree of heap nodes and updates them in place.  Here a node is a value and
every updating function returns the updated node.

* A pointer to a node is represented by the node it points to (`Option BtreeNode`, `none` being
  `NULL`).  Where the C code stores one pointer in two slots, both slots hold the same node value;
  that agrees with the C heap until one of the two is written through.  `free` is not represented.
* The arrays `keys`, `vals` and `children` are lists with one element per cell of the block that
  `btree_make_node` allocates: `max_keys`, `max_keys` and `max_keys + 1` cells as long as the byte
  sizes computed at `btree.c` lines 84 and 94-95 do not wrap in `size_t`.  The cells at and beyond
  `n_keys` / `n_children` keep the stale contents the code leaves there.
* `malloc` returns a block of exactly the requested number of bytes; exhausted memory is not
  represented.  The sizes are those of an LP64 target: `int` has 4 bytes, `size_t` and pointers
  have 8, and `struct BtreeNode` has 32 bytes before its flexible array member.
* Every function returns `Option`: `none` stands for a run that leaves defined behaviour (an array
  index outside the allocation, a dereferenced `NULL`, a failed `assert`).
* `size_t` is 64 bits wide; subtraction wraps (`size_sub`).
* Cells that `malloc` leaves uninitialised are filled with `0` / `NULL`.
-/

namespace BtreeEngine

/-! ## Data model (`btree.h`) -/

/-- A `char*` value; `none` is `NULL`. -/
abbrev CharPtr := Option String

/-- The `struct BtreeNode` of `btree.h`. -/
inductive BtreeNode where
  | mk (n_keys : Nat) (n_children : Nat) (keys : List Int) (vals : List CharPtr)
      (children : List (Option BtreeNode)) : BtreeNode

namespace BtreeNode

/-- Field `n_keys`. -/
def n_keys : BtreeNode → Nat
  | mk nk _ _ _ _ => nk

/-- Field `n_children`. -/
def n_children : BtreeNode → Nat
  | mk _ nc _ _ _ => nc

/-- Field `keys`. -/
def keys : BtreeNode → List Int
  | mk _ _ ks _ _ => ks

/-- Field `vals`. -/
def vals : BtreeNode → List CharPtr
  | mk _ _ _ vs _ => vs

/-- Field `children`. -/
def children : BtreeNode → List (Option BtreeNode)
  | mk _ _ _ _ cs => cs

end BtreeNode

/-- The `struct Btree` of `btree.h`. -/
structure Btree where
  max_keys : Nat
  root : Option BtreeNode

/-! ## Machine arithmetic and memory cells -/

/-- Largest `size_t`. -/
def SIZE_MAX : Nat := 18446744073709551615

/-- The constant `INT_MAX` of `limits.h`. -/
def INT_MAX : Int := 2147483647

/-- Subtraction on `size_t`, for operands that are at most `SIZE_MAX`: the difference `a - b`
when it is not negative, and otherwise the wrapped value `a - b + (SIZE_MAX + 1)`, that is the
difference modulo `SIZE_MAX + 1` (lemma `size_sub_wraps`). -/
def size_sub (a b : Nat) : Nat := if b ≤ a then a - b else SIZE_MAX + 1 - b + a

/-- Read of cell `i` of an array; `none` outside the allocation. -/
def load {α : Type} (a : List α) (i : Nat) : Option α := a[i]?

/-- Write of cell `i` of an array; `none` outside the allocation. -/
def store {α : Type} (a : List α) (i : Nat) (x : α) : Option (List α) :=
  if i < a.length then some (a.set i x) else none

/-- The assignment `node->keys[i] = k`. -/
def set_key : BtreeNode → Nat → Int → Option BtreeNode
  | .mk nk nc ks vs cs, i, k => (store ks i k).map fun ks1 => .mk nk nc ks1 vs cs

/-- The assignment `node->vals[i] = v`. -/
def set_val : BtreeNode → Nat → CharPtr → Option BtreeNode
  | .mk nk nc ks vs cs, i, v => (store vs i v).map fun vs1 => .mk nk nc ks vs1 cs

/-- The assignment `node->children[i] = c`. -/
def set_child : BtreeNode → Nat → Option BtreeNode → Option BtreeNode
  | .mk nk nc ks vs cs, i, c => (store cs i c).map fun cs1 => .mk nk nc ks vs cs1

/-- The assignment `node->n_keys = n`. -/
def set_n_keys : BtreeNode → Nat → BtreeNode
  | .mk _ nc ks vs cs, n => .mk n nc ks vs cs

/-- The assignment `node->n_children = n`. -/
def set_n_children : BtreeNode → Nat → BtreeNode
  | .mk nk _ ks vs cs, n => .mk nk n ks vs cs

/-- The read `node->children[i]` (a pointer, possibly `NULL`). -/
def get_child (node : BtreeNode) (i : Nat) : Option (Option BtreeNode) := load node.children i

/-- The read `node->children[i]` followed by a dereference: `NULL` is a fault. -/
def deref_child (node : BtreeNode) (i : Nat) : Option BtreeNode := (get_child node i).join

/-- Loop `for (j = start; ...; j++) body(j)` that runs `count` times. -/
def for_up {σ : Type} (body : Nat → σ → Option σ) : Nat → Nat → σ → Option σ
  | 0, _, s => some s
  | count + 1, j, s => (body j s).bind (for_up body count (j + 1))

/-- Loop `for (j = start; ...; j--) body(j)` that runs `count` times. -/
def for_down {σ : Type} (body : Nat → σ → Option σ) : Nat → Nat → σ → Option σ
  | 0, _, s => some s
  | count + 1, j, s => (body j s).bind (for_down body count (size_sub j 1))

/-- Loop `for (i = start; i < bound; i--) body(i)` (the loop header of `btree.c` line 223): after
`i = 0` the counter wraps to `SIZE_MAX`, which is not below `bound`. -/
def for_down_below {σ : Type} (body : Nat → σ → Option σ) (bound : Nat) : Nat → σ → Option σ
  | 0, s => if 0 < bound then body 0 s else some s
  | i + 1, s =>
    if i + 1 < bound then (body (i + 1) s).bind (for_down_below body bound i) else some s

/-! ## Construction -/

/-- Function `make_btree` (`btree.c` lines 71-80). -/
def make_btree (max_keys : Nat) : Btree :=
  { max_keys := if max_keys < 1 then 1 else max_keys, root := none }

/-- The value of an arithmetic expression of type `size_t`: the result modulo `SIZE_MAX + 1`. -/
def size_wrap (a : Nat) : Nat := a % (SIZE_MAX + 1)

/-- The value of `sizeof(BtreeNode)`: two `size_t` fields and two pointers before the flexible
array member `children`. -/
def SIZEOF_NODE : Nat := 32

/-- The value of `sizeof(BtreeNode*)` and of `sizeof(char*)`. -/
def SIZEOF_PTR : Nat := 8

/-- The value of `sizeof(int)`. -/
def SIZEOF_INT : Nat := 4

/-- The argument of the `malloc` of `btree.c` line 84,
`sizeof(BtreeNode) + sizeof(BtreeNode*) * (tree->max_keys+1)`, as `size_t` arithmetic gives it. -/
def node_bytes (max_keys : Nat) : Nat :=
  size_wrap (SIZEOF_NODE + size_wrap (SIZEOF_PTR * size_wrap (max_keys + 1)))

/-- Function `btree_make_node` (`btree.c` lines 82-102); the first parameter is
`tree->max_keys`.  The block of line 84 has `node_bytes max_keys` bytes, so `children` has as many
cells as fit behind the 32 bytes of the fields; the loop of lines 89-92 stores `NULL` into the
cells `0 .. max_keys` (`tree->max_keys+1` of them, counted in `size_t`) and leaves the block when
it has fewer cells.  The blocks of lines 94 and 95 have `sizeof(int) * max_keys` and
`sizeof(char*) * max_keys` bytes, again in `size_t`. -/
def btree_make_node (max_keys : Nat) (key : Int) (val : CharPtr) : Option BtreeNode := do
  let bytes := node_bytes max_keys
  if bytes < SIZEOF_NODE then none
  let cells := (bytes - SIZEOF_NODE) / SIZEOF_PTR
  if cells < size_wrap (max_keys + 1) then none
  let node := BtreeNode.mk 1 0
    (List.replicate (size_wrap (SIZEOF_INT * max_keys) / SIZEOF_INT) 0)
    (List.replicate (size_wrap (SIZEOF_PTR * max_keys) / SIZEOF_PTR) none)
    (List.replicate cells none)
  let node ← set_key node 0 key
  set_val node 0 val

/-- Function `move_entry` (`btree.c` lines 161-164); returns the updated `dest`.  When `src` and
`dest` are the same node the caller passes that node twice. -/
def move_entry (src : BtreeNode) (src_idx : Nat) (dest : BtreeNode) (dest_idx : Nat) :
    Option BtreeNode := do
  let k ← load src.keys src_idx
  let dest ← set_key dest dest_idx k
  let v ← load src.vals src_idx
  set_val dest dest_idx v

/-! ## Search (`btree.c` lines 128-148) -/

/-- The scan loop of `search` (lines 135-139), with `rem = n_keys - i` iterations left: either the
value found (`Sum.inr`) or the index at which the loop stops (`Sum.inl`). -/
def search_scan (keys : List Int) (vals : List CharPtr) (key : Int) :
    Nat → Nat → Option (Nat ⊕ CharPtr)
  | 0, i => some (.inl i)
  | rem + 1, i =>
    match load keys i with
    | none => none
    | some k =>
      if key ≥ k then
        if k = key then (load vals i).map .inr
        else search_scan keys vals key rem (i + 1)
      else some (.inl i)

mutual
/-- Function `search` on a node that exists. -/
def search : BtreeNode → Int → Option CharPtr
  | .mk nk nc ks vs cs, key =>
    match search_scan ks vs key nk 0 with
    | none => none
    | some (.inr v) => some v
    | some (.inl i) => if nc ≠ 0 then search_at cs i key else some none
/-- The call `search(root->children[i], key)`, `NULL` test of line 133 included. -/
def search_at : List (Option BtreeNode) → Nat → Int → Option CharPtr
  | [], _, _ => none
  | none :: _, 0, _ => some none
  | some c :: _, 0, key => search c key
  | _ :: cs, i + 1, key => search_at cs i key
end

/-- Function `btree_search` (lines 128-130). -/
def btree_search (tree : Btree) (key : Int) : Option CharPtr :=
  match tree.root with
  | none => some none
  | some root => search root key

/-! ## Insertion -/

/-- The scan `while(i < root->n_keys && key > root->keys[i]) i++` used by `node_insert`,
`node_rebalance` and `recursive_delete`, with `rem = n_keys - i` iterations left. -/
def key_scan (keys : List Int) (key : Int) : Nat → Nat → Option Nat
  | 0, i => some i
  | rem + 1, i =>
    match load keys i with
    | none => none
    | some k => if key > k then key_scan keys key rem (i + 1) else some i

/-- The test `i < root->n_keys && key == root->keys[i]`. -/
def key_at (n_keys : Nat) (keys : List Int) (key : Int) (i : Nat) : Option Bool :=
  if i < n_keys then (load keys i).map fun k => decide (key = k) else some false

/-- Function `node_split` (`btree.c` lines 169-258).  Returns `new_node` as the code leaves it:
the pushed up entry, `children[0]` the node `root` after the split and `children[1]` the new
sibling.  The stores of lines 206-207 alias `root` and the sibling, which the code keeps
updating; the embedding threads both as values and stores them into `new_node` at the end. -/
def node_split (root : BtreeNode) (max_keys : Nat) (new_node : BtreeNode) (idx : Nat) :
    Option BtreeNode := do
  let min_keys := max_keys / 2
  let temp ← btree_make_node max_keys (-1) none
  let temp ← set_child temp 0 (← get_child new_node 0)
  let temp ← set_child temp 1 (← get_child new_node 1)
  -- lines 176-201
  let (root, temp) ←
    if idx = min_keys then do
      let temp ← move_entry new_node 0 temp 0
      pure (root, temp)
    else if idx < min_keys then do
      let temp ← move_entry root (size_sub min_keys 1) temp 0
      let root ← for_down (fun i r => move_entry r (size_sub i 1) r i)
        (size_sub min_keys 1 - idx) (size_sub min_keys 1) root
      let root ← move_entry new_node 0 root idx
      pure (root, temp)
    else do
      let temp ← move_entry root min_keys temp 0
      let root ← for_down (fun i r => move_entry r i r (size_sub i 1))
        (size_sub idx 1 - min_keys) (size_sub idx 1) root
      let root ← move_entry new_node 0 root (size_sub idx 1)
      pure (root, temp)
  -- lines 203-213
  let new_node ← move_entry temp 0 new_node 0
  let right ← btree_make_node max_keys INT_MAX none
  let right ← for_up (fun i r => move_entry root i r (size_sub i min_keys))
    (max_keys - min_keys) min_keys right
  -- lines 215-251
  let (root, right) ←
    if root.n_children ≠ 0 then do
      if idx < min_keys then do
        let right ← for_up (fun i r => do set_child r (size_sub i min_keys) (← get_child root i))
          (max_keys + 1 - min_keys) min_keys right
        let root ← for_down_below (fun i r => do set_child r i (← get_child r (size_sub i 1)))
          (idx + 1) min_keys root
        let root ← set_child root (idx + 1) (← get_child temp 1)
        pure (set_n_children root (min_keys + 1), set_n_children right (max_keys - min_keys + 1))
      else do
        let right ← for_up
          (fun i r => do set_child r (size_sub (size_sub i min_keys) 1) (← get_child root i))
          (max_keys + 1 - (min_keys + 1)) (min_keys + 1) right
        let right ← for_down (fun i r => do set_child r i (← get_child r (size_sub i 1)))
          ((max_keys + 1) / 2 - (idx - min_keys)) ((max_keys + 1) / 2) right
        let right ← set_child right (idx - min_keys + 1) (← get_child temp 1)
        pure (set_n_children root (min_keys + 1), set_n_children right (max_keys - min_keys + 1))
    else pure (root, right)
  -- lines 252-255, with the stores of lines 206-207
  let root := set_n_keys root min_keys
  let right := set_n_keys right (max_keys - min_keys)
  let new_node ← set_child new_node 0 (some root)
  let new_node ← set_child new_node 1 (some right)
  pure (set_n_children (set_n_keys new_node 1) 2)

/-- Lines 282-295 of `node_insert`: insertion into a leaf that is not full. -/
def leaf_insert (root : BtreeNode) (max_keys : Nat) (key : Int) (val : CharPtr) (i : Nat) :
    Option BtreeNode := do
  if ¬ (root.n_keys < max_keys) then none
  let root ← for_up (fun idx r => do
      let r ← set_key r (idx + 1) (← load r.keys idx)
      let r ← set_val r (idx + 1) (← load r.vals idx)
      move_entry r idx r (idx + 1))
    (root.n_keys - i) i root
  let root ← set_key root i key
  let root ← set_val root i val
  pure (set_n_keys root (root.n_keys + 1))

/-- Lines 305-333 of `node_insert`: the pushed up `node` goes into an internal node that is not
full. -/
def internal_insert (root : BtreeNode) (max_keys : Nat) (node : BtreeNode) (i : Nat) :
    Option BtreeNode := do
  if ¬ (root.n_keys < max_keys) then none
  let root ← for_up (fun idx r => do
      let r ← set_key r (idx + 1) (← load r.keys idx)
      set_val r (idx + 1) (← load r.vals idx))
    (root.n_keys - i) i root
  let root ← set_key root i (← load node.keys 0)
  let root ← set_val root i (← load node.vals 0)
  let root := set_n_keys root (root.n_keys + 1)
  if ¬ (node.n_children = 2) then none
  if ¬ (node.n_keys = 1) then none
  let root ← for_up (fun idx r => do set_child r (idx + 1) (← get_child r idx))
    (root.n_children - (i + 1)) (i + 1) root
  let root ← set_child root i (← get_child node 0)
  let root ← set_child root (i + 1) (← get_child node 1)
  pure (set_n_children root (root.n_children + 1))

mutual
/-- Function `node_insert` (`btree.c` lines 262-337); the second parameter is `tree->max_keys`.
Returns the node `root` after the call and the returned pointer (`none` for `NULL`). -/
def node_insert : BtreeNode → Nat → Int → CharPtr → Option (BtreeNode × Option BtreeNode)
  | .mk nk nc ks vs cs, max_keys, key, val =>
    match key_scan ks key nk 0 with
    | none => none
    | some i =>
      match key_at nk ks key i with
      | none => none
      | some true => some (.mk nk nc ks vs cs, none)
      | some false =>
        if nc = 0 then
          if nk = max_keys then
            match (btree_make_node max_keys key val).bind
                fun node => node_split (.mk nk nc ks vs cs) max_keys node i with
            | none => none
            | some node => (deref_child node 0).map fun root => (root, some node)
          else
            (leaf_insert (.mk nk nc ks vs cs) max_keys key val i).map fun root => (root, none)
        else
          match node_insert_at cs i max_keys key val with
          | none => none
          | some (cs1, none) => some (.mk nk nc ks vs cs1, none)
          | some (cs1, some node) =>
            if nk = max_keys then
              match node_split (.mk nk nc ks vs cs1) max_keys node i with
              | none => none
              | some node => (deref_child node 0).map fun root => (root, some node)
            else
              (internal_insert (.mk nk nc ks vs cs1) max_keys node i).map fun root => (root, none)
/-- The call `node_insert(root->children[i], tree, key, val)` of line 299: returns the array
`children` with the node in slot `i` as the call leaves it, and the returned pointer. -/
def node_insert_at : List (Option BtreeNode) → Nat → Nat → Int → CharPtr →
    Option (List (Option BtreeNode) × Option BtreeNode)
  | [], _, _, _, _ => none
  | none :: _, 0, _, _, _ => none
  | some c :: cs, 0, max_keys, key, val =>
    match node_insert c max_keys key val with
    | none => none
    | some (c1, r) => some (some c1 :: cs, r)
  | c :: cs, i + 1, max_keys, key, val =>
    match node_insert_at cs i max_keys key val with
    | none => none
    | some (cs1, r) => some (c :: cs1, r)
end

/-- Function `btree_insert` (`btree.c` lines 150-159). -/
def btree_insert (tree : Btree) (key : Int) (val : CharPtr) : Option Btree :=
  match tree.root with
  | none => (btree_make_node tree.max_keys key val).map fun n => { tree with root := some n }
  | some root =>
    match node_insert root tree.max_keys key val with
    | none => none
    | some (root1, none) => some { tree with root := some root1 }
    | some (_, some new_node) => some { tree with root := some new_node }

/-! ## Deletion -/

mutual
/-- The loop of `get_previous_key` (line 344-346): the node reached by following the last child
down to a leaf. -/
def last_leaf : BtreeNode → Option BtreeNode
  | .mk nk nc ks vs cs =>
    if nc > 0 then last_leaf_at cs (size_sub nc 1) else some (.mk nk nc ks vs cs)
/-- The step `node = node->children[i]` of that loop, and the rest of the loop. -/
def last_leaf_at : List (Option BtreeNode) → Nat → Option BtreeNode
  | [], _ => none
  | none :: _, 0 => none
  | some c :: _, 0 => last_leaf c
  | _ :: cs, i + 1 => last_leaf_at cs i
end

/-- Function `get_previous_key` (`btree.c` lines 339-348): the node the returned pointer points
to; `none` when the function returns `NULL` (its only caller dereferences the result at once) or
faults. -/
def get_previous_key (root : BtreeNode) (idx : Nat) : Option BtreeNode :=
  if root.n_children = 0 then none else (deref_child root idx).bind last_leaf

mutual
/-- The node with the node reached by the loop of `get_previous_key` replaced by `prev`: a write
through the pointer that `get_previous_key` returned. -/
def put_last_leaf : BtreeNode → BtreeNode → Option BtreeNode
  | .mk nk nc ks vs cs, prev =>
    if nc > 0 then
      match put_last_leaf_at cs (size_sub nc 1) prev with
      | none => none
      | some cs1 => some (.mk nk nc ks vs cs1)
    else some prev
/-- The same below slot `i` of an array of children. -/
def put_last_leaf_at : List (Option BtreeNode) → Nat → BtreeNode → Option (List (Option BtreeNode))
  | [], _, _ => none
  | none :: _, 0, _ => none
  | some c :: cs, 0, prev =>
    match put_last_leaf c prev with
    | none => none
    | some c1 => some (some c1 :: cs)
  | c :: cs, i + 1, prev =>
    match put_last_leaf_at cs i prev with
    | none => none
    | some cs1 => some (c :: cs1)
end

/-- The node `root` after a write through the pointer `get_previous_key(root, idx)` that leaves
the pointed-to node as `prev`. -/
def put_previous_key (root : BtreeNode) (idx : Nat) (prev : BtreeNode) : Option BtreeNode :=
  if root.n_children = 0 then none
  else match root with
    | .mk nk nc ks vs cs =>
      match put_last_leaf_at cs idx prev with
      | none => none
      | some cs1 => some (.mk nk nc ks vs cs1)

/-- Lines 372-403 of `node_rebalance`: a key is borrowed from the right sibling of child `i`. -/
def borrow_from_right (root : BtreeNode) (i : Nat) : Option BtreeNode := do
  let child ← deref_child root i
  let right ← deref_child root (i + 1)
  let child ← move_entry root i child child.n_keys
  let child := set_n_keys child (child.n_keys + 1)
  let root ← move_entry right 0 root i
  let right ← for_up (fun j r => move_entry r (j + 1) r j) (size_sub right.n_keys 1) 0 right
  let right := set_n_keys right (size_sub right.n_keys 1)
  let (child, right) ←
    if child.n_children > 0 then do
      let child ← set_child child child.n_children (← get_child right 0)
      let child := set_n_children child (child.n_children + 1)
      let right ← for_up (fun j r => do set_child r j (← get_child r (j + 1)))
        (size_sub right.n_children 1) 0 right
      pure (child, set_n_children right (size_sub right.n_children 1))
    else pure (child, right)
  let root ← set_child root i (some child)
  set_child root (i + 1) (some right)

/-- Lines 408-437 of `node_rebalance`: a key is borrowed from the left sibling of child `i`. -/
def borrow_from_left (root : BtreeNode) (i : Nat) : Option BtreeNode := do
  let child ← deref_child root i
  let left ← deref_child root (size_sub i 1)
  let child ← for_down (fun j c => move_entry c (size_sub j 1) c j)
    (size_sub child.n_keys 1) (size_sub child.n_keys 1) child
  let child ← move_entry root (size_sub i 1) child 0
  let child := set_n_keys child (child.n_keys + 1)
  let root ← move_entry left (size_sub left.n_keys 1) root (size_sub i 1)
  let left := set_n_keys left (size_sub left.n_keys 1)
  let (child, left) ←
    if child.n_children > 0 then do
      let child ← for_down (fun j c => do set_child c j (← get_child c (size_sub j 1)))
        child.n_children child.n_children child
      let child ← set_child child 0 (← get_child left (size_sub left.n_children 1))
      pure (set_n_children child (child.n_children + 1),
        set_n_children left (size_sub left.n_children 1))
    else pure (child, left)
  let root ← set_child root (size_sub i 1) (some left)
  set_child root i (some child)

/-- Lines 441-479 of `node_rebalance`: child `i` is merged with a sibling. -/
def merge_children (root : BtreeNode) (i : Nat) : Option BtreeNode := do
  let leftIdx := if i > 0 then size_sub i 1 else i
  let left ← deref_child root leftIdx
  let right ← deref_child root (leftIdx + 1)
  let left ← move_entry root leftIdx left left.n_keys
  let left := set_n_keys left (left.n_keys + 1)
  let root ← for_up (fun j r => move_entry r (j + 1) r j)
    (size_sub root.n_keys 1 - leftIdx) leftIdx root
  let root := set_n_keys root (size_sub root.n_keys 1)
  let left ← for_up (fun j l => move_entry right j l (j + l.n_keys)) right.n_keys 0 left
  let left := set_n_keys left (left.n_keys + right.n_keys)
  let left ← for_up (fun j l => do set_child l (l.n_children + j) (← get_child right j))
    right.n_children 0 left
  let left := set_n_children left (left.n_children + right.n_children)
  let root ← set_child root leftIdx (some left)
  let root ← for_up (fun j r => do set_child r j (← get_child r (j + 1)))
    (size_sub root.n_children 1 - (leftIdx + 1)) (leftIdx + 1) root
  pure (set_n_children root (size_sub root.n_children 1))

/-- Lines 362-480 of `node_rebalance`, the recursive call of line 365 left out: what the function
does with child `i` once the subtree below it has been rebalanced. -/
def rebalance_child (root : BtreeNode) (max_keys : Nat) (i : Nat) : Option BtreeNode := do
  let min_keys := max_keys / 2
  let child ← deref_child root i
  if child.n_keys ≥ min_keys then some root
  else
    let right_rich ←
      if i < size_sub root.n_children 1 then
        (deref_child root (i + 1)).map fun r => decide (r.n_keys > min_keys)
      else some false
    if right_rich then borrow_from_right root i
    else
      let left_rich ←
        if i > 0 then
          (deref_child root (size_sub i 1)).map fun l => decide (l.n_keys > min_keys)
        else some false
      if left_rich then borrow_from_left root i else merge_children root i

mutual
/-- Function `node_rebalance` (`btree.c` lines 350-481); the second parameter is
`tree->max_keys`.  Returns the node `root` after the call. -/
def node_rebalance : BtreeNode → Nat → Int → Option BtreeNode
  | .mk nk nc ks vs cs, max_keys, key =>
    if nc = 0 then some (.mk nk nc ks vs cs)
    else
      match key_scan ks key nk 0 with
      | none => none
      | some i =>
        match node_rebalance_at cs i max_keys key with
        | none => none
        | some cs1 => rebalance_child (.mk nk nc ks vs cs1) max_keys i
/-- The call `node_rebalance(tree, root->children[i], key)` of line 365: the array `children`
with the node in slot `i` as the call leaves it. -/
def node_rebalance_at : List (Option BtreeNode) → Nat → Nat → Int →
    Option (List (Option BtreeNode))
  | [], _, _, _ => none
  | none :: _, 0, _, _ => none
  | some c :: cs, 0, max_keys, key =>
    match node_rebalance c max_keys key with
    | none => none
    | some c1 => some (some c1 :: cs)
  | c :: cs, i + 1, max_keys, key =>
    match node_rebalance_at cs i max_keys key with
    | none => none
    | some cs1 => some (c :: cs1)
end

/-- Lines 489-502 of `recursive_delete`: the key sits at index `i` of the leaf `root`.  The third
component is the key with which line 500 calls `node_rebalance` on the root of the tree. -/
def delete_from_leaf (root : BtreeNode) (max_keys : Nat) (key : Int) (i : Nat) :
    Option (BtreeNode × Int × Option Int) := do
  let root ← for_up (fun j r => move_entry r (j + 1) r j) (size_sub root.n_keys 1 - i) i root
  let root := set_n_keys root (size_sub root.n_keys 1)
  pure (root, 0, if root.n_keys < max_keys / 2 then some key else none)

/-- Lines 503-514 of `recursive_delete`: the key sits at index `i` of the internal node `root`.
The third component is the key with which line 512 calls `node_rebalance` on the root of the
tree. -/
def delete_from_internal (root : BtreeNode) (max_keys : Nat) (i : Nat) :
    Option (BtreeNode × Int × Option Int) := do
  let prev ← get_previous_key root i
  let root ← move_entry prev (size_sub prev.n_keys 1) root i
  let prev := set_n_keys prev (size_sub prev.n_keys 1)
  let root ← put_previous_key root i prev
  if prev.n_keys < max_keys / 2 then
    pure (root, 0, some (← load prev.keys 0))
  else pure (root, 0, none)

mutual
/-- Function `recursive_delete` (`btree.c` lines 483-528); the second parameter is
`tree->max_keys`.
Returns the node `root` after the removal, the returned `int`, and the pending rebalance: when
the C function calls `node_rebalance(tree, tree->root, k)` (lines 500 and 512) it is the last
thing any of the nested calls does, so the embedding hands `k` back to `btree_delete`, which holds
the root of the tree and makes the call there. -/
def recursive_delete : BtreeNode → Nat → Int → Option (BtreeNode × Int × Option Int)
  | .mk nk nc ks vs cs, max_keys, key =>
    match key_scan ks key nk 0 with
    | none => none
    | some i =>
      match key_at nk ks key i with
      | none => none
      | some true =>
        if nc = 0 then delete_from_leaf (.mk nk nc ks vs cs) max_keys key i
        else delete_from_internal (.mk nk nc ks vs cs) max_keys i
      | some false =>
        if nc > 0 then
          match recursive_delete_at cs i max_keys key with
          | none => none
          | some (cs1, ret, pending) => some (.mk nk nc ks vs cs1, ret, pending)
        else some (.mk nk nc ks vs cs, -1, none)
/-- The call `recursive_delete(tree, root->children[i], key)` of line 519. -/
def recursive_delete_at : List (Option BtreeNode) → Nat → Nat → Int →
    Option (List (Option BtreeNode) × Int × Option Int)
  | [], _, _, _ => none
  | none :: _, 0, _, _ => none
  | some c :: cs, 0, max_keys, key =>
    match recursive_delete c max_keys key with
    | none => none
    | some (c1, ret, pending) => some (some c1 :: cs, ret, pending)
  | c :: cs, i + 1, max_keys, key =>
    match recursive_delete_at cs i max_keys key with
    | none => none
    | some (cs1, ret, pending) => some (c :: cs1, ret, pending)
end

/-- The call `recursive_delete(tree, tree->root, key)` of line 533 together with the call of
`node_rebalance` on `tree->root` that it makes before it returns: the root node afterwards and
the returned `int`. -/
def delete_and_rebalance (root : BtreeNode) (max_keys : Nat) (key : Int) :
    Option (BtreeNode × Int) :=
  match recursive_delete root max_keys key with
  | none => none
  | some (root1, ret, none) => some (root1, ret)
  | some (root1, ret, some k) => (node_rebalance root1 max_keys k).map fun root2 => (root2, ret)

/-- Function `btree_delete` (`btree.c` lines 531-547). -/
def btree_delete (tree : Btree) (key : Int) : Option Btree :=
  match tree.root with
  | none => some tree
  | some root =>
    match delete_and_rebalance root tree.max_keys key with
    | none => none
    | some (root1, _) =>
      if root1.n_keys = 0 then
        if root1.n_children > 0 then
          (get_child root1 0).map fun c => { tree with root := c }
        else some { tree with root := none }
      else some { tree with root := some root1 }

/-! ## Vocabulary of the specification -/

/-- A run of `btree_insert` calls, one per pair, in order. -/
def insert_pairs (tree : Btree) : List (Int × CharPtr) → Option Btree
  | [] => some tree
  | (k, v) :: rest => (btree_insert tree k v).bind fun t => insert_pairs t rest

/-- A run of `btree_delete` calls, one per key, in order. -/
def delete_keys (tree : Btree) : List Int → Option Btree
  | [] => some tree
  | k :: rest => (btree_delete tree k).bind fun t => delete_keys t rest

mutual
/-- The keys held by the nodes of a subtree: in every node the first `n_keys` cells of `keys`,
and the nodes are those in the first `n_children` slots of `children`. -/
def subtree_keys : BtreeNode → List Int
  | .mk nk nc ks _ cs => ks.take nk ++ slots_keys cs nc
/-- The keys held below the first `n` slots of an array of children. -/
def slots_keys : List (Option BtreeNode) → Nat → List Int
  | [], _ => []
  | _ :: _, 0 => []
  | none :: cs, n + 1 => slots_keys cs n
  | some c :: cs, n + 1 => subtree_keys c ++ slots_keys cs n
end

mutual
/-- The entries (key with its value) held by the nodes of a subtree. -/
def subtree_entries : BtreeNode → List (Int × CharPtr)
  | .mk nk nc ks vs cs => (ks.zip vs).take nk ++ slots_entries cs nc
/-- The entries held below the first `n` slots of an array of children. -/
def slots_entries : List (Option BtreeNode) → Nat → List (Int × CharPtr)
  | [], _ => []
  | _ :: _, 0 => []
  | none :: cs, n + 1 => slots_entries cs n
  | some c :: cs, n + 1 => subtree_entries c ++ slots_entries cs n
end

/-- The keys held by a tree. -/
def tree_keys (tree : Btree) : List Int :=
  match tree.root with
  | none => []
  | some root => subtree_keys root

/-- The entries held by a tree. -/
def tree_entries (tree : Btree) : List (Int × CharPtr) :=
  match tree.root with
  | none => []
  | some root => subtree_entries root

/-- A list of keys ascends strictly. -/
def strictly_ascending : List Int → Bool
  | [] => true
  | [_] => true
  | a :: b :: rest => decide (a < b) && strictly_ascending (b :: rest)

/-- The key `x` lies strictly between `keys[i-1]` and `keys[i]` of a node with `nk` keys, with
no bound on the left for `i = 0` and none on the right for `i = nk`. -/
def between (ks : List Int) (nk i : Nat) (x : Int) : Bool :=
  (i == 0 || match ks[i - 1]? with
    | some k => decide (k < x)
    | none => false) &&
  (i == nk || match ks[i]? with
    | some k => decide (x < k)
    | none => false)

mutual
/-- The ordering invariant of Section 3 below a node: the first `n_keys` keys exist and ascend
strictly, a node with children has `n_keys + 1` of them, none `NULL`, and child `i` holds only
keys strictly between `keys[i-1]` and `keys[i]`. -/
def ordered : BtreeNode → Bool
  | .mk nk nc ks vs cs =>
    decide (nk ≤ ks.length) && decide (nk ≤ vs.length) && strictly_ascending (ks.take nk) &&
      (nc == 0 || (nc == nk + 1 && ordered_slots ks nk cs 0 nc))
/-- The ordering invariant for the `n` slots of `children` from slot `i` on. -/
def ordered_slots (ks : List Int) (nk : Nat) : List (Option BtreeNode) → Nat → Nat → Bool
  | _, _, 0 => true
  | [], _, _ + 1 => false
  | none :: _, _, _ + 1 => false
  | some c :: cs, i, n + 1 =>
    ordered c && (subtree_keys c).all (between ks nk i) && ordered_slots ks nk cs (i + 1) n
end

/-- The ordering invariant for a tree. -/
def tree_ordered (tree : Btree) : Bool :=
  match tree.root with
  | none => true
  | some root => ordered root

mutual
/-- Every node below has its first `n_keys` keys in strictly ascending order. -/
def nodes_ascending : BtreeNode → Bool
  | .mk nk nc ks _ cs => strictly_ascending (ks.take nk) && slots_ascending cs nc
/-- The same for the nodes in the first `n` slots. -/
def slots_ascending : List (Option BtreeNode) → Nat → Bool
  | [], _ => true
  | _ :: _, 0 => true
  | none :: cs, n + 1 => slots_ascending cs n
  | some c :: cs, n + 1 => nodes_ascending c && slots_ascending cs n
end

mutual
/-- Every one of the `n_children` slots of every internal node below holds a node, and every
leaf below is exactly `d` levels down. -/
def leaves_at : BtreeNode → Nat → Bool
  | .mk _ nc _ _ cs, d =>
    if nc = 0 then d == 0
    else match d with
      | 0 => false
      | d1 + 1 => slots_leaves_at cs nc d1
/-- The same for the nodes in the first `n` slots. -/
def slots_leaves_at : List (Option BtreeNode) → Nat → Nat → Bool
  | _, 0, _ => true
  | [], _ + 1, _ => false
  | none :: _, _ + 1, _ => false
  | some c :: cs, n + 1, d => leaves_at c d && slots_leaves_at cs n d
end

mutual
/-- Length of the path from a node to a leaf along the first child. -/
def first_depth : BtreeNode → Nat
  | .mk _ nc _ _ cs => if nc = 0 then 0 else first_depth_at cs + 1
/-- Length of that path from the node in the first slot. -/
def first_depth_at : List (Option BtreeNode) → Nat
  | [] => 0
  | none :: _ => 0
  | some c :: _ => first_depth c
end

/-- All leaves of the subtree are at the same depth. -/
def same_depth (root : BtreeNode) : Bool := leaves_at root (first_depth root)

mutual
/-- The count invariants of Section 3 below a node: the arrays have the sizes `btree_make_node`
allocates, `n_keys` is at most `max_keys`, at least 1 in the root and at least `max_keys / 2`
elsewhere, and `n_children` is 0 in a leaf and `n_keys + 1` in an internal node. -/
def counts_ok : BtreeNode → Nat → Bool → Bool
  | .mk nk nc ks vs cs, max_keys, is_root =>
    decide (ks.length = max_keys) && decide (vs.length = max_keys) &&
      decide (cs.length = max_keys + 1) && decide (nk ≤ max_keys) &&
      (if is_root then decide (1 ≤ nk) else decide (max_keys / 2 ≤ nk)) &&
      (nc == 0 || nc == nk + 1) && slots_counts_ok cs nc max_keys
/-- The same for the nodes in the first `n` slots, none of which is the root. -/
def slots_counts_ok : List (Option BtreeNode) → Nat → Nat → Bool
  | [], _, _ => true
  | _ :: _, 0, _ => true
  | none :: cs, n + 1, max_keys => slots_counts_ok cs n max_keys
  | some c :: cs, n + 1, max_keys => counts_ok c max_keys false && slots_counts_ok cs n max_keys
end

/-- The invariants of Section 3 of the specification for a tree. -/
def section3_inv (tree : Btree) : Bool :=
  decide (1 ≤ tree.max_keys) &&
    match tree.root with
    | none => true
    | some root => ordered root && counts_ok root tree.max_keys true && same_depth root

mutual
/-- The descent of `search` reaches an entry whose key is `key`. -/
def search_reaches : BtreeNode → Int → Bool
  | .mk nk nc ks vs cs, key =>
    match search_scan ks vs key nk 0 with
    | none => false
    | some (.inr _) => true
    | some (.inl i) => nc != 0 && search_reaches_at cs i key
/-- The same for the call on `root->children[i]`. -/
def search_reaches_at : List (Option BtreeNode) → Nat → Int → Bool
  | [], _, _ => false
  | none :: _, 0, _ => false
  | some c :: _, 0, key => search_reaches c key
  | _ :: cs, i + 1, key => search_reaches_at cs i key
end

/-- The descent of `btree_search` reaches an entry whose key is `key`. -/
def tree_reaches (tree : Btree) (key : Int) : Bool :=
  match tree.root with
  | none => false
  | some root => search_reaches root key

/-- The byte size that `btree_make_node` requests for a node,
`sizeof(BtreeNode) + sizeof(BtreeNode*) * (max_keys + 1)`, is at most `SIZE_MAX`: the `size_t`
arithmetic of `btree.c` line 84 does not wrap. -/
def node_bytes_fit (max_keys : Nat) : Bool :=
  decide (SIZEOF_NODE + SIZEOF_PTR * (max_keys + 1) ≤ SIZE_MAX)

/-- The entries a node counts: the first `n_keys` cells of `keys`, each with its value. -/
def node_entries (n : BtreeNode) : List (Int × CharPtr) := (n.keys.zip n.vals).take n.n_keys

/-- The child pointers a node counts: the first `n_children` cells of `children`. -/
def node_children (n : BtreeNode) : List (Option BtreeNode) := n.children.take n.n_children

/-- The node has the arrays `btree_make_node` allocates for `max_keys`, and it is a leaf or holds
`n_keys + 1` children. -/
def node_shape (n : BtreeNode) (max_keys : Nat) : Bool :=
  decide (n.keys.length = max_keys) && decide (n.vals.length = max_keys) &&
    decide (n.children.length = max_keys + 1) &&
    (n.n_children == 0 || n.n_children == n.n_keys + 1)

/-- Slot `j` of `root` holds a sibling at the minimum: a node of the shape above with exactly
`max_keys / 2` entries, which is a leaf exactly when `child` is one. -/
def min_sibling (root : BtreeNode) (max_keys : Nat) (child : BtreeNode) (j : Nat) : Bool :=
  match deref_child root j with
  | some s => node_shape s max_keys && decide (s.n_keys = max_keys / 2) &&
      ((s.n_children == 0) == (child.n_children == 0))
  | none => false

/-- The situation in which `node_rebalance` merges: `root` is an internal node with at least one
entry and `n_keys + 1` children, its child `i` holds `max_keys / 2 - 1` entries, and each of the
siblings of that child that exist (slot `i - 1` for `i > 0`, slot `i + 1` for
`i + 1 < n_children`) is at the minimum. -/
def merge_case (root : BtreeNode) (max_keys i : Nat) : Bool :=
  node_shape root max_keys && decide (1 ≤ root.n_keys) && decide (root.n_keys ≤ max_keys) &&
    decide (root.n_children = root.n_keys + 1) &&
    match deref_child root i with
    | some child => node_shape child max_keys && decide (child.n_keys + 1 = max_keys / 2) &&
        (decide (i = 0) || min_sibling root max_keys child (i - 1)) &&
        (decide (root.n_children ≤ i + 1) || min_sibling root max_keys child (i + 1))
    | none => false

/-! ## Concrete trees

Each tree below is the state the code reaches by the calls named with it; the lemmas `*_reached`
and `*_step` evaluate the code to show it. -/

/-- The tree after `make_btree(2)` and the inserts 1, 2, 3, 4. -/
def tree_asc4 : Btree :=
  { max_keys := 2,
    root := some (.mk 1 2 [2, 0] [some "2", none]
      [some (.mk 1 0 [1, 3] [some "1", some "3"] [none, none, none]),
       some (.mk 2 0 [3, 4] [some "3", some "4"] [none, none, none]),
       none]) }

/-- The tree after `make_btree(2)` and the inserts 1, 2, 3, 4, 5, 6. -/
def tree_asc6 : Btree :=
  { max_keys := 2,
    root := some (.mk 2 3 [2, 4] [some "2", some "4"]
      [some (.mk 1 0 [1, 3] [some "1", some "3"] [none, none, none]),
       some (.mk 1 0 [3, 5] [some "3", some "5"] [none, none, none]),
       some (.mk 2 0 [5, 6] [some "5", some "6"] [none, none, none])]) }

/-- The tree after `make_btree(2)` and the inserts 1, 2, 3, 4, 5, 6, 7: the node with key 6 has
`n_children = 2`, its slot 1 is `NULL` and the leaf with key 7 sits in slot 2. -/
def tree_asc7 : Btree :=
  { max_keys := 2,
    root := some (.mk 1 2 [4, 0] [some "4", none]
      [some (.mk 1 2 [2, 6] [some "2", some "6"]
        [some (.mk 1 0 [1, 3] [some "1", some "3"] [none, none, none]),
         some (.mk 1 0 [3, 5] [some "3", some "5"] [none, none, none]),
         some (.mk 1 0 [5, 7] [some "5", some "7"] [none, none, none])]),
       some (.mk 1 2 [6, 0] [some "6", none]
        [some (.mk 1 0 [5, 7] [some "5", some "7"] [none, none, none]),
         none,
         some (.mk 1 0 [7, 0] [some "7", none] [none, none, none])]),
       none]) }

/-- The tree after `make_btree(2)` and the inserts 5, 10, 20, 6. -/
def tree_m2 : Btree :=
  { max_keys := 2,
    root := some (.mk 1 2 [10, 0] [some "10", none]
      [some (.mk 2 0 [5, 6] [some "5", some "6"] [none, none, none]),
       some (.mk 1 0 [20, 0] [some "20", none] [none, none, none]),
       none]) }

/-- The tree after `make_btree(1)` and the inserts 1, 2. -/
def tree_m1 : Btree :=
  { max_keys := 1,
    root := some (.mk 1 2 [1] [some "1"]
      [some (.mk 0 0 [2] [some "2"] [none, none]),
       some (.mk 1 0 [2] [some "2"] [none, none])]) }

/-- The tree after `make_btree(4)` and the inserts 10, 20, 30, 40. -/
def tree_m4_full : Btree :=
  { max_keys := 4,
    root := some (.mk 4 0 [10, 20, 30, 40] [some "10", some "20", some "30", some "40"]
      [none, none, none, none, none]) }

/-- The tree after `make_btree(4)` and the inserts 10, 20, 30, 40, 50, 25. -/
def tree_m4 : Btree :=
  { max_keys := 4,
    root := some (.mk 1 2 [30, 0, 0, 0] [some "30", none, none, none]
      [some (.mk 3 0 [10, 20, 25, 50] [some "10", some "20", some "25", some "50"]
        [none, none, none, none, none]),
       some (.mk 2 0 [40, 50, 0, 0] [some "40", some "50", none, none]
        [none, none, none, none, none]),
       none, none, none]) }

/-- The tree `tree_m4` after `btree_delete` of 50. -/
def tree_m4_del50 : Btree :=
  { max_keys := 4,
    root := some (.mk 1 2 [25, 0, 0, 0] [some "25", none, none, none]
      [some (.mk 2 0 [10, 20, 25, 50] [some "10", some "20", some "25", some "50"]
        [none, none, none, none, none]),
       some (.mk 2 0 [30, 50, 0, 0] [some "30", some "50", none, none]
        [none, none, none, none, none]),
       none, none, none]) }

/-- The tree `tree_m4` after `btree_delete` of 50, 40, 10. -/
def tree_m4_del10 : Btree :=
  { max_keys := 4,
    root := some (.mk 4 0 [20, 25, 30, 50] [some "20", some "25", some "30", some "50"]
      [none, none, none, none, none]) }

/-- The tree `tree_m4` after `btree_delete` of 50, 40, 10, 20, 25, 30. -/
def tree_m4_end : Btree :=
  { max_keys := 4,
    root := some (.mk 1 0 [50, 50, 50, 50] [some "50", some "50", some "50", some "50"]
      [none, none, none, none, none]) }

/-! ## Nodes and trees of the scenarios -/

/-- The root after `make_btree(2)` and the insert of 10 with the value `v 10`. -/
def scenario_root1 (v : Int → String) : BtreeNode :=
  .mk 1 0 [10, 0] [some (v 10), none] [none, none, none]

/-- The root after the inserts 10, 20. -/
def scenario_root2 (v : Int → String) : BtreeNode :=
  .mk 2 0 [10, 20] [some (v 10), some (v 20)] [none, none, none]

/-- The root after the inserts 10, 20, 5. -/
def scenario_root3 (v : Int → String) : BtreeNode :=
  .mk 1 2 [10, 0] [some (v 10), none]
    [some (.mk 1 0 [5, 20] [some (v 5), some (v 20)] [none, none, none]),
     some (.mk 1 0 [20, 0] [some (v 20), none] [none, none, none]),
     none]

/-- The root after the inserts 10, 20, 5, 6. -/
def scenario_root4 (v : Int → String) : BtreeNode :=
  .mk 1 2 [10, 0] [some (v 10), none]
    [some (.mk 2 0 [5, 6] [some (v 5), some (v 6)] [none, none, none]),
     some (.mk 1 0 [20, 0] [some (v 20), none] [none, none, none]),
     none]

/-- The root after the inserts 10, 20, 5, 6, 12. -/
def scenario_root5 (v : Int → String) : BtreeNode :=
  .mk 1 2 [10, 0] [some (v 10), none]
    [some (.mk 2 0 [5, 6] [some (v 5), some (v 6)] [none, none, none]),
     some (.mk 2 0 [12, 20] [some (v 12), some (v 20)] [none, none, none]),
     none]

/-- The root after the inserts 10, 20, 5, 6, 12, 30. -/
def scenario_root6 (v : Int → String) : BtreeNode :=
  .mk 2 3 [10, 20] [some (v 10), some (v 20)]
    [some (.mk 2 0 [5, 6] [some (v 5), some (v 6)] [none, none, none]),
     some (.mk 1 0 [12, 30] [some (v 12), some (v 30)] [none, none, none]),
     some (.mk 1 0 [30, 0] [some (v 30), none] [none, none, none])]

/-- The left half of the root after the inserts 10, 20, 5, 6, 12, 30, 7. -/
def scenario_left7 (v : Int → String) : BtreeNode :=
  .mk 1 2 [6, 20] [some (v 6), some (v 20)]
    [some (.mk 1 0 [5, 7] [some (v 5), some (v 7)] [none, none, none]),
     some (.mk 1 0 [7, 0] [some (v 7), none] [none, none, none]),
     some (.mk 1 0 [30, 0] [some (v 30), none] [none, none, none])]

/-- The root after the inserts 10, 20, 5, 6, 12, 30, 7. -/
def scenario_root7 (v : Int → String) : BtreeNode :=
  .mk 1 2 [10, 0] [some (v 10), none]
    [some (scenario_left7 v),
     some (.mk 1 2 [20, 0] [some (v 20), none]
      [some (.mk 1 0 [12, 30] [some (v 12), some (v 30)] [none, none, none]),
       some (.mk 1 0 [30, 0] [some (v 30), none] [none, none, none]),
       none]),
     none]

/-- The root after the inserts 10, 20, 5, 6, 12, 30, 7, 17. -/
def scenario_root8 (v : Int → String) : BtreeNode :=
  .mk 1 2 [10, 0] [some (v 10), none]
    [some (scenario_left7 v),
     some (.mk 1 2 [20, 0] [some (v 20), none]
      [some (.mk 2 0 [12, 17] [some (v 12), some (v 17)] [none, none, none]),
       some (.mk 1 0 [30, 0] [some (v 30), none] [none, none, none]),
       none]),
     none]

/-- The root `scenario_root8 v` after `btree_delete` of 20. -/
def scenario_root9 (v : Int → String) : BtreeNode :=
  .mk 1 2 [10, 0] [some (v 10), none]
    [some (scenario_left7 v),
     some (.mk 1 2 [17, 0] [some (v 17), none]
      [some (.mk 1 0 [12, 17] [some (v 12), some (v 17)] [none, none, none]),
       some (.mk 1 0 [30, 0] [some (v 30), none] [none, none, none]),
       none]),
     none]

/-- The tree after `make_btree(2)` and the inserts 10, 20, 5, 6, 12, 30, 7, 17 with the values
`v`. -/
def scenario_tree (v : Int → String) : Btree := { max_keys := 2, root := some (scenario_root8 v) }

/-- The tree `scenario_tree v` after `btree_delete` of 20. -/
def scenario_tree_del20 (v : Int → String) : Btree :=
  { max_keys := 2, root := some (scenario_root9 v) }

/-- The full leaf reached by `make_btree(5)` and the inserts 10, 20, 30, 40, 50. -/
def leaf_m5 : BtreeNode :=
  .mk 5 0 [10, 20, 30, 40, 50] [some "10", some "20", some "30", some "40", some "50"]
    [none, none, none, none, none, none]

/-- The node that `node_insert` returns for `leaf_m5` and the key 60. -/
def split_m5 : BtreeNode :=
  .mk 1 2 [30, 0, 0, 0, 0] [some "30", none, none, none, none]
    [some (.mk 2 0 [10, 20, 50, 50, 60]
        [some "10", some "20", some "50", some "50", some "60"]
        [none, none, none, none, none, none]),
     some (.mk 3 0 [50, 50, 60, 0, 0] [some "50", some "50", some "60", none, none]
        [none, none, none, none, none, none]),
     none, none, none, none]

/-- The leaf reached by `make_btree(3)` and the inserts 10, 20. -/
def leaf_m3 : BtreeNode :=
  .mk 2 0 [10, 20, 0] [some "10", some "20", none] [none, none, none, none]

/-- The root of `tree_m4` once `recursive_delete` has removed 50 from its second leaf and before
`node_rebalance` runs: child 1 holds one entry, fewer than `max_keys / 2 = 2`. -/
def node_m4_deficient : BtreeNode :=
  .mk 1 2 [30, 0, 0, 0] [some "30", none, none, none]
    [some (.mk 3 0 [10, 20, 25, 50] [some "10", some "20", some "25", some "50"]
        [none, none, none, none, none]),
     some (.mk 1 0 [40, 50, 0, 0] [some "40", some "50", none, none]
        [none, none, none, none, none]),
     none, none, none]

/-- The node `node_m4_deficient` after `node_rebalance` with the key 50. -/
def node_m4_rebalanced : BtreeNode :=
  .mk 1 2 [25, 0, 0, 0] [some "25", none, none, none]
    [some (.mk 2 0 [10, 20, 25, 50] [some "10", some "20", some "25", some "50"]
        [none, none, none, none, none]),
     some (.mk 2 0 [30, 50, 0, 0] [some "30", some "50", none, none]
        [none, none, none, none, none]),
     none, none, none]

/-- The children of the node with keys 2 and 4 of a tree with `max_keys = 2`, after key 3 has been
removed from the middle leaf: the leaves hold 1, nothing and 5. -/
def children_m2_deficient : List (Option BtreeNode) :=
  [some (.mk 1 0 [1, 3] [some "1", some "3"] [none, none, none]),
   some (.mk 0 0 [3, 5] [some "3", some "5"] [none, none, none]),
   some (.mk 1 0 [5, 6] [some "5", some "6"] [none, none, none])]

/-! ## Lemmas on the embedding -/



theorem sizeOf_child_lt {nk nc : Nat} {ks : List Int} {vs : List CharPtr}
    {cs : List (Option BtreeNode)} {i : Nat} {c : BtreeNode} (h : cs[i]? = some (some c)) :
    sizeOf c < sizeOf (BtreeNode.mk nk nc ks vs cs) := by
  have hm : some c ∈ cs := List.mem_iff_getElem?.2 ⟨i, h⟩
  have h1 := List.sizeOf_lt_of_mem hm
  simp only [BtreeNode.mk.sizeOf_spec, Option.some.sizeOf_spec] at *
  omega

theorem node_induction {P : BtreeNode → Prop}
    (step : ∀ nk nc ks vs cs, (∀ (i : Nat) c, cs[i]? = some (some c) → P c) →
      P (.mk nk nc ks vs cs))
    (t : BtreeNode) : P t := by
  generalize hn : sizeOf t = n
  induction n using Nat.strong_induction_on generalizing t with
  | _ n ih =>
    cases t with
    | mk nk nc ks vs cs =>
      apply step
      intro i c hc
      exact ih _ (hn ▸ sizeOf_child_lt hc) c rfl



theorem search_scan_key_scan (ks : List Int) (vs : List CharPtr) (key : Int) :
    ∀ (rem i : Nat) (r : Nat ⊕ CharPtr), search_scan ks vs key rem i = some r →
      match r with
      | .inr _ => ∃ p, key_scan ks key rem i = some p ∧ p < i + rem ∧ load ks p = some key
      | .inl p => key_scan ks key rem i = some p ∧
          (p < i + rem → ∃ k, load ks p = some k ∧ key < k) := by
  intro rem
  induction rem with
  | zero =>
    intro i r h
    simp only [search_scan, Option.some.injEq] at h
    subst h
    simp [key_scan]
  | succ rem ih =>
    intro i r h
    simp only [search_scan] at h
    cases hk : load ks i with
    | none => simp [hk] at h
    | some k =>
      simp only [hk] at h
      by_cases h1 : key ≥ k
      · simp only [h1, if_true] at h
        by_cases h2 : k = key
        · simp only [h2, if_true] at h
          cases hv : load vs i with
          | none => simp [hv] at h
          | some v =>
            simp only [hv, Option.map_some', Option.some.injEq] at h
            subst h
            refine ⟨i, ?_, by omega, by rw [hk, h2]⟩
            simp [key_scan, hk, h2]
        · simp only [h2, if_false] at h
          have h3 : key > k := lt_of_le_of_ne h1 h2
          have := ih (i + 1) r h
          cases r with
          | inr v =>
            obtain ⟨p, hp1, hp2, hp3⟩ := this
            exact ⟨p, by simp [key_scan, hk, h3, hp1], by omega, hp3⟩
          | inl p =>
            obtain ⟨hp1, hp2⟩ := this
            exact ⟨by simp [key_scan, hk, h3, hp1], fun hlt => hp2 (by omega)⟩
      · simp only [h1, if_false, Option.some.injEq] at h
        subst h
        have h3 : ¬ key > k := fun hgt => h1 (le_of_lt hgt)
        exact ⟨by simp [key_scan, hk, h3], fun _ => ⟨k, hk, lt_of_not_ge h1⟩⟩

theorem search_reaches_at_child (key : Int) :
    ∀ (cs : List (Option BtreeNode)) (i : Nat), search_reaches_at cs i key = true →
      ∃ c, cs[i]? = some (some c) ∧ search_reaches c key = true := by
  intro cs
  induction cs with
  | nil => intro i h; simp [search_reaches_at] at h
  | cons c cs ih =>
    intro i h
    cases i with
    | zero =>
      cases c with
      | none => simp [search_reaches_at] at h
      | some c => exact ⟨c, by simp, by simpa [search_reaches_at] using h⟩
    | succ i =>
      have h1 : search_reaches_at cs i key = true := by
        cases c <;> simpa [search_reaches_at] using h
      obtain ⟨c1, hc1, hc2⟩ := ih i h1
      exact ⟨c1, by simpa using hc1, hc2⟩

theorem node_insert_at_unchanged (max_keys : Nat) (key : Int) (val : CharPtr) (c : BtreeNode)
    (hc : node_insert c max_keys key val = some (c, none)) :
    ∀ (cs : List (Option BtreeNode)) (i : Nat), cs[i]? = some (some c) →
      node_insert_at cs i max_keys key val = some (cs, none) := by
  intro cs
  induction cs with
  | nil => intro i h; simp at h
  | cons d cs ih =>
    intro i h
    cases i with
    | zero =>
      simp only [List.getElem?_cons_zero, Option.some.injEq] at h
      subst h
      simp [node_insert_at, hc]
    | succ i =>
      simp only [List.getElem?_cons_succ] at h
      cases d <;> simp [node_insert_at, ih i h]

theorem node_insert_present (max_keys : Nat) (key : Int) (val : CharPtr) (t : BtreeNode) :
    search_reaches t key = true → node_insert t max_keys key val = some (t, none) := by
  induction t using node_induction with
  | step nk nc ks vs cs ih =>
    intro h
    rw [search_reaches] at h
    rw [node_insert]
    cases hs : search_scan ks vs key nk 0 with
    | none => simp [hs] at h
    | some r =>
      have hsk := search_scan_key_scan ks vs key nk 0 r hs
      cases r with
      | inr v =>
        obtain ⟨p, hp1, hp2, hp3⟩ := hsk
        have hp2' : p < nk := by omega
        simp [hp1, key_at, hp2', hp3]
      | inl p =>
        obtain ⟨hp1, hp2⟩ := hsk
        simp only [hs, Bool.and_eq_true, bne_iff_ne, ne_eq] at h
        obtain ⟨hnc, hat⟩ := h
        obtain ⟨c, hc1, hc2⟩ := search_reaches_at_child key cs p hat
        have hkat : key_at nk ks key p = some false := by
          unfold key_at
          by_cases hlt : p < nk
          · obtain ⟨k, hk1, hk2⟩ := hp2 (by omega)
            simp [hlt, hk1, ne_of_lt hk2]
          · simp [hlt]
        have hrec := node_insert_at_unchanged max_keys key val c (ih p c hc1 hc2) cs p hc1
        simp [hp1, hkat, hnc, hrec]

theorem load_eq {α : Type} (a : List α) (i : Nat) : load a i = a[i]? := rfl

theorem key_scan_spec (ks : List Int) (key : Int) :
    ∀ (rem i : Nat), i + rem ≤ ks.length →
      ∃ p, key_scan ks key rem i = some p ∧ i ≤ p ∧ p ≤ i + rem ∧
        (∀ j k, i ≤ j → j < p → ks[j]? = some k → k < key) ∧
        (p < i + rem → ∃ k, ks[p]? = some k ∧ key ≤ k) := by
  intro rem
  induction rem with
  | zero => intro i _; exact ⟨i, by simp [key_scan], le_refl _, le_refl _, by omega, by omega⟩
  | succ rem ih =>
    intro i hlen
    have hi : i < ks.length := by omega
    have hk : ks[i]? = some ks[i] := List.getElem?_eq_getElem hi
    by_cases h : key > ks[i]
    · obtain ⟨p, hp1, hp2, hp3, hp4, hp5⟩ := ih (i + 1) (by omega)
      refine ⟨p, by simp [key_scan, load_eq, hk, h, hp1], by omega, by omega, ?_,
        fun hlt => hp5 (by omega)⟩
      intro j k hj1 hj2 hjk
      by_cases hji : j = i
      · subst hji
        rw [hk] at hjk
        cases hjk
        exact h
      · exact hp4 j k (by omega) hj2 hjk
    · exact ⟨i, by simp [key_scan, load_eq, hk, h], le_refl _, by omega, by omega,
        fun _ => ⟨ks[i], hk, le_of_not_gt h⟩⟩

theorem mem_slots_keys (x : Int) :
    ∀ (cs : List (Option BtreeNode)) (n : Nat),
      x ∈ slots_keys cs n ↔ ∃ j c, j < n ∧ cs[j]? = some (some c) ∧ x ∈ subtree_keys c := by
  intro cs
  induction cs with
  | nil => intro n; simp [slots_keys]
  | cons d cs ih =>
    intro n
    cases n with
    | zero => simp [slots_keys]
    | succ n =>
      have step : (∃ j c, j < n + 1 ∧ (d :: cs)[j]? = some (some c) ∧ x ∈ subtree_keys c) ↔
          ((∃ c, d = some c ∧ x ∈ subtree_keys c) ∨
            ∃ j c, j < n ∧ cs[j]? = some (some c) ∧ x ∈ subtree_keys c) := by
        constructor
        · rintro ⟨j, c, hj, hc, hx⟩
          cases j with
          | zero => left; exact ⟨c, by simpa using hc, hx⟩
          | succ j => right; exact ⟨j, c, by omega, by simpa using hc, hx⟩
        · rintro (⟨c, hc, hx⟩ | ⟨j, c, hj, hc, hx⟩)
          · exact ⟨0, c, by omega, by simp [hc], hx⟩
          · exact ⟨j + 1, c, by omega, by simpa using hc, hx⟩
      rw [step]
      cases d with
      | none => simp [slots_keys, ih n]
      | some c0 => simp [slots_keys, ih n]

theorem mem_slots_entries (e : Int × CharPtr) :
    ∀ (cs : List (Option BtreeNode)) (n : Nat),
      e ∈ slots_entries cs n ↔
        ∃ j c, j < n ∧ cs[j]? = some (some c) ∧ e ∈ subtree_entries c := by
  intro cs
  induction cs with
  | nil => intro n; simp [slots_entries]
  | cons d cs ih =>
    intro n
    cases n with
    | zero => simp [slots_entries]
    | succ n =>
      have step : (∃ j c, j < n + 1 ∧ (d :: cs)[j]? = some (some c) ∧ e ∈ subtree_entries c) ↔
          ((∃ c, d = some c ∧ e ∈ subtree_entries c) ∨
            ∃ j c, j < n ∧ cs[j]? = some (some c) ∧ e ∈ subtree_entries c) := by
        constructor
        · rintro ⟨j, c, hj, hc, hx⟩
          cases j with
          | zero => left; exact ⟨c, by simpa using hc, hx⟩
          | succ j => right; exact ⟨j, c, by omega, by simpa using hc, hx⟩
        · rintro (⟨c, hc, hx⟩ | ⟨j, c, hj, hc, hx⟩)
          · exact ⟨0, c, by omega, by simp [hc], hx⟩
          · exact ⟨j + 1, c, by omega, by simpa using hc, hx⟩
      rw [step]
      cases d with
      | none => simp [slots_entries, ih n]
      | some c0 => simp [slots_entries, ih n]

theorem ordered_slots_spec (ks : List Int) (nk : Nat) :
    ∀ (cs : List (Option BtreeNode)) (i n : Nat), ordered_slots ks nk cs i n = true →
      ∀ j, j < n → ∃ c, cs[j]? = some (some c) ∧ ordered c = true ∧
        ∀ x ∈ subtree_keys c, between ks nk (i + j) x = true := by
  intro cs
  induction cs with
  | nil =>
    intro i n h j hj
    cases n with
    | zero => omega
    | succ n => simp [ordered_slots] at h
  | cons d cs ih =>
    intro i n h j hj
    cases n with
    | zero => omega
    | succ n =>
      cases d with
      | none => simp [ordered_slots] at h
      | some c0 =>
        simp only [ordered_slots, Bool.and_eq_true, List.all_eq_true] at h
        obtain ⟨⟨h1, h2⟩, h3⟩ := h
        cases j with
        | zero => exact ⟨c0, by simp, h1, by simpa using h2⟩
        | succ j =>
          obtain ⟨c, hc1, hc2, hc3⟩ := ih (i + 1) n h3 j (by omega)
          refine ⟨c, by simpa using hc1, hc2, ?_⟩
          intro x hx
          have := hc3 x hx
          rwa [show i + (j + 1) = i + 1 + j by omega]

theorem recursive_delete_at_unchanged (max_keys : Nat) (key : Int) (c : BtreeNode) (ret : Int)
    (pending : Option Int) (hc : recursive_delete c max_keys key = some (c, ret, pending)) :
    ∀ (cs : List (Option BtreeNode)) (i : Nat), cs[i]? = some (some c) →
      recursive_delete_at cs i max_keys key = some (cs, ret, pending) := by
  intro cs
  induction cs with
  | nil => intro i h; simp at h
  | cons d cs ih =>
    intro i h
    cases i with
    | zero =>
      simp only [List.getElem?_cons_zero, Option.some.injEq] at h
      subst h
      simp [recursive_delete_at, hc]
    | succ i =>
      simp only [List.getElem?_cons_succ] at h
      cases d <;> simp [recursive_delete_at, ih i h]

theorem ordered_unfold {nk nc : Nat} {ks : List Int} {vs : List CharPtr}
    {cs : List (Option BtreeNode)} (h : ordered (.mk nk nc ks vs cs) = true) :
    nk ≤ ks.length ∧ nk ≤ vs.length ∧ strictly_ascending (ks.take nk) = true ∧
      (nc = 0 ∨ (nc = nk + 1 ∧ ordered_slots ks nk cs 0 nc = true)) := by
  rw [ordered] at h
  simp only [Bool.and_eq_true, decide_eq_true_eq, Bool.or_eq_true, beq_iff_eq] at h
  exact ⟨h.1.1.1, h.1.1.2, h.1.2, h.2⟩

theorem recursive_delete_absent (max_keys : Nat) (key : Int) (t : BtreeNode) :
    ordered t = true → key ∉ subtree_keys t →
      recursive_delete t max_keys key = some (t, -1, none) := by
  induction t using node_induction with
  | step nk nc ks vs cs ih =>
    intro hord hnot
    obtain ⟨hlen, _, _, hch⟩ := ordered_unfold hord
    rw [subtree_keys, List.mem_append, not_or] at hnot
    obtain ⟨hnot1, hnot2⟩ := hnot
    obtain ⟨p, hp1, _, hp3, _, hp5⟩ := key_scan_spec ks key nk 0 (by omega)
    have hkat : key_at nk ks key p = some false := by
      unfold key_at
      by_cases hlt : p < nk
      · obtain ⟨k, hk1, _⟩ := hp5 (by omega)
        have hne : key ≠ k := by
          intro heq
          apply hnot1
          rw [List.mem_iff_getElem?]
          exact ⟨p, by rw [List.getElem?_take_of_lt hlt, hk1, heq]⟩
        simp [hlt, load_eq, hk1, hne]
      · simp [hlt]
    rw [recursive_delete]
    rcases hch with hz | ⟨hnc, hsl⟩
    · simp [hp1, hkat, hz]
    · obtain ⟨c, hc1, hc2, _⟩ := ordered_slots_spec ks nk cs 0 nc hsl p (by omega)
      have hcn : key ∉ subtree_keys c := by
        intro hx
        exact hnot2 ((mem_slots_keys key cs nc).2 ⟨p, c, by omega, hc1, hx⟩)
      have hrec := recursive_delete_at_unchanged max_keys key c (-1) none
        (ih p c hc1 hc2 hcn) cs p hc1
      have hpos : nc > 0 := by omega
      have hne : nc ≠ 0 := by omega
      simp [hp1, hkat, hne, hpos, hrec]

theorem strictly_ascending_pairwise :
    ∀ (l : List Int), strictly_ascending l = true → l.Pairwise (· < ·) := by
  intro l h
  rw [← List.chain'_iff_pairwise]
  induction l with
  | nil => exact List.chain'_nil
  | cons a l ih =>
    cases l with
    | nil => exact List.chain'_singleton a
    | cons b l =>
      simp only [strictly_ascending, Bool.and_eq_true, decide_eq_true_eq] at h
      exact List.chain'_cons.2 ⟨h.1, ih h.2⟩

theorem ascending_lt {ks : List Int} {nk : Nat} (h : strictly_ascending (ks.take nk) = true)
    {a b : Nat} {ka kb : Int} (hab : a < b) (hb : b < nk) (ha1 : ks[a]? = some ka)
    (hb1 : ks[b]? = some kb) : ka < kb := by
  have hp := strictly_ascending_pairwise _ h
  rw [List.pairwise_iff_getElem] at hp
  have hbl : b < ks.length := (List.getElem?_eq_some.1 hb1).1
  have hb2 : b < (ks.take nk).length := by rw [List.length_take]; omega
  have ha2 : a < (ks.take nk).length := by omega
  have := hp a b ha2 hb2 hab
  have e1 : (ks.take nk)[a]? = some ka := by rw [List.getElem?_take_of_lt (by omega), ha1]
  have e2 : (ks.take nk)[b]? = some kb := by rw [List.getElem?_take_of_lt hb, hb1]
  rw [List.getElem?_eq_getElem ha2] at e1
  rw [List.getElem?_eq_getElem hb2] at e2
  cases e1
  cases e2
  exact this

theorem ascending_le {ks : List Int} {nk : Nat} (h : strictly_ascending (ks.take nk) = true)
    {a b : Nat} {ka kb : Int} (hab : a ≤ b) (hb : b < nk) (ha1 : ks[a]? = some ka)
    (hb1 : ks[b]? = some kb) : ka ≤ kb := by
  rcases Nat.lt_or_eq_of_le hab with hlt | heq
  · exact le_of_lt (ascending_lt h hlt hb ha1 hb1)
  · subst heq
    rw [ha1] at hb1
    cases hb1
    exact le_refl _

theorem search_scan_spec (ks : List Int) (vs : List CharPtr) (key : Int) :
    ∀ (rem i : Nat), i + rem ≤ ks.length → i + rem ≤ vs.length →
      ∃ r, search_scan ks vs key rem i = some r ∧
        match r with
        | .inl p => i ≤ p ∧ p ≤ i + rem ∧
            (∀ j k, i ≤ j → j < p → ks[j]? = some k → k < key) ∧
            (p < i + rem → ∃ k, ks[p]? = some k ∧ key < k)
        | .inr v => ∃ p, i ≤ p ∧ p < i + rem ∧ ks[p]? = some key ∧ vs[p]? = some v := by
  intro rem
  induction rem with
  | zero =>
    intro i _ _
    exact ⟨.inl i, by simp [search_scan], le_refl _, le_refl _, by omega, by omega⟩
  | succ rem ih =>
    intro i hlen hlen2
    have hi : i < ks.length := by omega
    have hi2 : i < vs.length := by omega
    have hk : ks[i]? = some ks[i] := List.getElem?_eq_getElem hi
    have hv : vs[i]? = some vs[i] := List.getElem?_eq_getElem hi2
    by_cases h1 : key ≥ ks[i]
    · by_cases h2 : ks[i] = key
      · exact ⟨.inr vs[i], by simp [search_scan, load_eq, hk, hv, h2],
          i, le_refl _, by omega, by rw [hk, h2], hv⟩
      · obtain ⟨r, hr1, hr2⟩ := ih (i + 1) (by omega) (by omega)
        refine ⟨r, by simp [search_scan, load_eq, hk, h1, h2, hr1], ?_⟩
        cases r with
        | inl p =>
          obtain ⟨q1, q2, q3, q4⟩ := hr2
          refine ⟨by omega, by omega, ?_, fun hlt => q4 (by omega)⟩
          intro j k hj1 hj2 hjk
          by_cases hji : j = i
          · subst hji
            rw [hk] at hjk
            cases hjk
            exact lt_of_le_of_ne h1 h2
          · exact q3 j k (by omega) hj2 hjk
        | inr v =>
          obtain ⟨p, q1, q2, q3, q4⟩ := hr2
          exact ⟨p, by omega, by omega, q3, q4⟩
    · exact ⟨.inl i, by simp [search_scan, load_eq, hk, h1], le_refl _, by omega, by omega,
        fun _ => ⟨ks[i], hk, lt_of_not_ge h1⟩⟩

theorem search_at_child (key : Int) (c : BtreeNode) :
    ∀ (cs : List (Option BtreeNode)) (i : Nat), cs[i]? = some (some c) →
      search_at cs i key = search c key := by
  intro cs
  induction cs with
  | nil => intro i h; simp at h
  | cons d cs ih =>
    intro i h
    cases i with
    | zero =>
      simp only [List.getElem?_cons_zero, Option.some.injEq] at h
      subst h
      simp [search_at]
    | succ i =>
      simp only [List.getElem?_cons_succ] at h
      cases d <;> simp [search_at, ih i h]

theorem mem_take_zip {ks : List Int} {vs : List CharPtr} {nk : Nat} {e : Int × CharPtr} :
    e ∈ (ks.zip vs).take nk ↔ ∃ q, q < nk ∧ ks[q]? = some e.1 ∧ vs[q]? = some e.2 := by
  rw [List.mem_iff_getElem?]
  constructor
  · rintro ⟨q, hq⟩
    rw [List.getElem?_take] at hq
    by_cases hlt : q < nk
    · rw [if_pos hlt, List.getElem?_zip_eq_some] at hq
      exact ⟨q, hlt, hq.1, hq.2⟩
    · rw [if_neg hlt] at hq
      cases hq
  · rintro ⟨q, hlt, h1, h2⟩
    exact ⟨q, by rw [List.getElem?_take, if_pos hlt, List.getElem?_zip_eq_some]; exact ⟨h1, h2⟩⟩

theorem mem_take_keys {ks : List Int} {nk : Nat} {x : Int} :
    x ∈ ks.take nk ↔ ∃ q, q < nk ∧ ks[q]? = some x := by
  rw [List.mem_iff_getElem?]
  constructor
  · rintro ⟨q, hq⟩
    rw [List.getElem?_take] at hq
    by_cases hlt : q < nk
    · rw [if_pos hlt] at hq
      exact ⟨q, hlt, hq⟩
    · rw [if_neg hlt] at hq
      cases hq
  · rintro ⟨q, hlt, h1⟩
    exact ⟨q, by rw [List.getElem?_take, if_pos hlt]; exact h1⟩

theorem entries_keys (t : BtreeNode) :
    ∀ (e : Int × CharPtr), e ∈ subtree_entries t → e.1 ∈ subtree_keys t := by
  induction t using node_induction with
  | step nk nc ks vs cs ih =>
    intro e he
    rw [subtree_entries, List.mem_append] at he
    rw [subtree_keys, List.mem_append]
    rcases he with he | he
    · left
      obtain ⟨q, hq, h1, _⟩ := mem_take_zip.1 he
      exact mem_take_keys.2 ⟨q, hq, h1⟩
    · right
      obtain ⟨j, c, hj, hc, hx⟩ := (mem_slots_entries e cs nc).1 he
      exact (mem_slots_keys e.1 cs nc).2 ⟨j, c, hj, hc, ih j c hc e hx⟩

theorem keys_entries (t : BtreeNode) :
    ordered t = true → ∀ (x : Int), x ∈ subtree_keys t →
      ∃ v, (x, v) ∈ subtree_entries t := by
  induction t using node_induction with
  | step nk nc ks vs cs ih =>
    intro hord x hx
    obtain ⟨_, hlen2, _, hch⟩ := ordered_unfold hord
    rw [subtree_keys, List.mem_append] at hx
    rcases hx with hx | hx
    · obtain ⟨q, hq, h1⟩ := mem_take_keys.1 hx
      have hq2 : q < vs.length := by omega
      refine ⟨vs[q], ?_⟩
      rw [subtree_entries, List.mem_append]
      left
      exact mem_take_zip.2 ⟨q, hq, h1, List.getElem?_eq_getElem hq2⟩
    · obtain ⟨j, c, hj, hc, hxc⟩ := (mem_slots_keys x cs nc).1 hx
      rcases hch with hz | ⟨_, hsl⟩
      · omega
      · obtain ⟨c1, hc1, hc2, _⟩ := ordered_slots_spec ks nk cs 0 nc hsl j hj
        rw [hc] at hc1
        cases hc1
        obtain ⟨v, hv⟩ := ih j c hc hc2 x hxc
        refine ⟨v, ?_⟩
        rw [subtree_entries, List.mem_append]
        right
        exact (mem_slots_entries (x, v) cs nc).2 ⟨j, c, hj, hc, hv⟩

theorem between_spec {ks : List Int} {nk i : Nat} {x : Int} (h : between ks nk i x = true) :
    (i ≠ 0 → ∃ k, ks[i - 1]? = some k ∧ k < x) ∧ (i ≠ nk → ∃ k, ks[i]? = some k ∧ x < k) := by
  unfold between at h
  simp only [Bool.and_eq_true, Bool.or_eq_true, beq_iff_eq] at h
  obtain ⟨h1, h2⟩ := h
  constructor
  · intro hi
    rcases h1 with h1 | h1
    · exact absurd h1 hi
    · cases hk : ks[i - 1]? with
      | none => simp [hk] at h1
      | some k => exact ⟨k, rfl, by simpa [hk] using h1⟩
  · intro hi
    rcases h2 with h2 | h2
    · exact absurd h2 hi
    · cases hk : ks[i]? with
      | none => simp [hk] at h2
      | some k => exact ⟨k, rfl, by simpa [hk] using h2⟩
theorem child_excludes_key {ks : List Int} {nk p j : Nat} {key : Int}
    (hasc : strictly_ascending (ks.take nk) = true) (hp : p < nk) (hpk : ks[p]? = some key)
    (hj : j ≤ nk) (hb : between ks nk j key = true) : False := by
  obtain ⟨b1, b2⟩ := between_spec hb
  by_cases hlt : p < j
  · obtain ⟨k, hk1, hk2⟩ := b1 (by omega)
    have := ascending_le hasc (show p ≤ j - 1 by omega) (by omega) hpk hk1
    omega
  · obtain ⟨k, hk1, hk2⟩ := b2 (by omega)
    have := ascending_le hasc (show j ≤ p by omega) hp hk1 hpk
    omega

theorem child_index_unique {ks : List Int} {nk p j : Nat} {key : Int}
    (hasc : strictly_ascending (ks.take nk) = true) (hp : p ≤ nk)
    (hlow : ∀ (q : Nat) (k : Int), 0 ≤ q → q < p → ks[q]? = some k → k < key)
    (hup : p < 0 + nk → ∃ k, ks[p]? = some k ∧ key < k)
    (hj : j ≤ nk) (hb : between ks nk j key = true) : j = p := by
  obtain ⟨b1, b2⟩ := between_spec hb
  by_contra hne
  by_cases hlt : j < p
  · obtain ⟨k, hk1, hk2⟩ := b2 (by omega)
    have := hlow j k (by omega) hlt hk1
    omega
  · obtain ⟨k, hk1, hk2⟩ := b1 (by omega)
    obtain ⟨k2, hk3, hk4⟩ := hup (by omega)
    have := ascending_le hasc (show p ≤ j - 1 by omega) (by omega) hk3 hk1
    omega

theorem search_node_correct (key : Int) (t : BtreeNode) :
    ordered t = true →
      (∀ v, (key, v) ∈ subtree_entries t → search t key = some v) ∧
        (key ∉ subtree_keys t → search t key = some none) := by
  induction t using node_induction with
  | step nk nc ks vs cs ih =>
    intro hord
    obtain ⟨hlen, hlen2, hasc, hch⟩ := ordered_unfold hord
    obtain ⟨r, hr1, hr2⟩ := search_scan_spec ks vs key nk 0 (by omega) (by omega)
    rw [search]
    simp only [hr1]
    cases r with
    | inr v =>
      obtain ⟨p, _, hp2, hp3, hp4⟩ := hr2
      have hp : p < nk := by omega
      constructor
      · intro v1 hv1
        rw [subtree_entries, List.mem_append] at hv1
        rcases hv1 with hv1 | hv1
        · obtain ⟨q, hq, h1, h2⟩ := mem_take_zip.1 hv1
          have hqp : q = p := by
            by_contra hne
            rcases Nat.lt_or_gt_of_ne hne with hlt | hgt
            · have := ascending_lt hasc hlt hp h1 hp3
              simp at this
            · have := ascending_lt hasc hgt hq hp3 h1
              simp at this
          subst hqp
          simp only at h2
          rw [hp4] at h2
          exact h2
        · exfalso
          obtain ⟨j, c, hj, hc, hx⟩ := (mem_slots_entries (key, v1) cs nc).1 hv1
          rcases hch with hz | ⟨hnc, hsl⟩
          · omega
          · obtain ⟨c1, hc1, _, hc3⟩ := ordered_slots_spec ks nk cs 0 nc hsl j hj
            rw [hc] at hc1
            cases hc1
            have hb := hc3 key (entries_keys c (key, v1) hx)
            rw [Nat.zero_add] at hb
            exact child_excludes_key hasc hp hp3 (by omega) hb
      · intro hnot
        exfalso
        apply hnot
        rw [subtree_keys, List.mem_append]
        left
        exact mem_take_keys.2 ⟨p, hp, hp3⟩
    | inl p =>
      obtain ⟨_, hp2, hp3, hp4⟩ := hr2
      have hown : ∀ q, q < nk → ks[q]? ≠ some key := by
        intro q hq hqk
        by_cases hlt : q < p
        · have := hp3 q key (by omega) hlt hqk
          omega
        · obtain ⟨k, hk1, hk2⟩ := hp4 (by omega)
          have := ascending_le hasc (show p ≤ q by omega) hq hk1 hqk
          omega
      rcases hch with hz | ⟨hnc, hsl⟩
      · subst hz
        simp only [ne_eq, not_true_eq_false, if_false]
        refine ⟨?_, fun _ => trivial⟩
        intro v1 hv1
        exfalso
        rw [subtree_entries, List.mem_append] at hv1
        rcases hv1 with hv1 | hv1
        · obtain ⟨q, hq, h1, _⟩ := mem_take_zip.1 hv1
          exact hown q hq h1
        · obtain ⟨j, c, hj, _, _⟩ := (mem_slots_entries (key, v1) cs 0).1 hv1
          omega
      · obtain ⟨c, hc1, hc2, _⟩ := ordered_slots_spec ks nk cs 0 nc hsl p (by omega)
        have hne : nc ≠ 0 := by omega
        simp only [ne_eq, hne, not_false_eq_true, if_true]
        rw [search_at_child key c cs p hc1]
        obtain ⟨ih1, ih2⟩ := ih p c hc1 hc2
        constructor
        · intro v1 hv1
          rw [subtree_entries, List.mem_append] at hv1
          rcases hv1 with hv1 | hv1
          · exfalso
            obtain ⟨q, hq, h1, _⟩ := mem_take_zip.1 hv1
            exact hown q hq h1
          · obtain ⟨j, cj, hj, hcj, hx⟩ := (mem_slots_entries (key, v1) cs nc).1 hv1
            obtain ⟨c1, hc1j, _, hc3⟩ := ordered_slots_spec ks nk cs 0 nc hsl j hj
            rw [hcj] at hc1j
            cases hc1j
            have hb := hc3 key (entries_keys cj (key, v1) hx)
            rw [Nat.zero_add] at hb
            have hjp : j = p := child_index_unique hasc (by omega) hp3 hp4 (by omega) hb
            subst hjp
            rw [hcj] at hc1
            cases hc1
            exact ih1 v1 hx
        · intro hnot
          apply ih2
          intro hx
          apply hnot
          rw [subtree_keys, List.mem_append]
          right
          exact (mem_slots_keys key cs nc).2 ⟨p, c, by omega, hc1, hx⟩

/-! ## The merge branch of `node_rebalance` -/

theorem size_sub_wraps (a b : Nat) (ha : a ≤ SIZE_MAX) (hb : b ≤ SIZE_MAX) :
    size_sub a b = (a + (SIZE_MAX + 1) - b) % (SIZE_MAX + 1) := by
  unfold size_sub SIZE_MAX at *
  split <;> omega

theorem size_sub_of_le {a b : Nat} (h : b ≤ a) : size_sub a b = a - b := by
  simp [size_sub, h]

theorem move_entry_eq {src : BtreeNode} {si nk nc : Nat} {ks : List Int} {vs : List CharPtr}
    {cs : List (Option BtreeNode)} {di : Nat} {k : Int} {v : CharPtr}
    (hk : src.keys[si]? = some k) (hv : src.vals[si]? = some v) (hdk : di < ks.length)
    (hdv : di < vs.length) :
    move_entry src si (.mk nk nc ks vs cs) di = some (.mk nk nc (ks.set di k) (vs.set di v) cs) := by
  simp [move_entry, load, set_key, set_val, store, hk, hv, hdk, hdv]

theorem getElem_set_cases {α : Type} (l : List α) (i : Nat) (a : α) (hi : i < l.length) (t : Nat) :
    (l.set i a)[t]? = if t = i then some a else l[t]? := by
  rw [List.getElem?_set]
  by_cases h : i = t
  · subst h
    simp [hi]
  · have h2 : ¬ t = i := fun e => h e.symm
    simp [h, h2]

theorem shift_entries_loop (nk nc : Nat) (cs : List (Option BtreeNode)) :
    ∀ (c j0 : Nat) (ks : List Int) (vs : List CharPtr), j0 + c < ks.length →
      j0 + c < vs.length →
      ∃ ks1 vs1, for_up (fun j r => move_entry r (j + 1) r j) c j0 (.mk nk nc ks vs cs) =
          some (.mk nk nc ks1 vs1 cs) ∧
        ks1.length = ks.length ∧ vs1.length = vs.length ∧
        (∀ t, ks1[t]? = if j0 ≤ t ∧ t < j0 + c then ks[t + 1]? else ks[t]?) ∧
        (∀ t, vs1[t]? = if j0 ≤ t ∧ t < j0 + c then vs[t + 1]? else vs[t]?) := by
  intro c
  induction c with
  | zero =>
    intro j0 ks vs _ _
    refine ⟨ks, vs, rfl, rfl, rfl, ?_, ?_⟩ <;>
    · intro t
      rw [if_neg (by omega)]
  | succ c ih =>
    intro j0 ks vs hk hv
    have hk1 : ks[j0 + 1]? = some ks[j0 + 1] := List.getElem?_eq_getElem (by omega)
    have hv1 : vs[j0 + 1]? = some vs[j0 + 1] := List.getElem?_eq_getElem (by omega)
    have hstep : move_entry (.mk nk nc ks vs cs) (j0 + 1) (.mk nk nc ks vs cs) j0 =
        some (.mk nk nc (ks.set j0 ks[j0 + 1]) (vs.set j0 vs[j0 + 1]) cs) :=
      move_entry_eq hk1 hv1 (by omega) (by omega)
    obtain ⟨ks1, vs1, hrun, hl1, hl2, hp1, hp2⟩ :=
      ih (j0 + 1) (ks.set j0 ks[j0 + 1]) (vs.set j0 vs[j0 + 1])
        (by rw [List.length_set]; omega) (by rw [List.length_set]; omega)
    refine ⟨ks1, vs1, ?_, by rw [hl1, List.length_set], by rw [hl2, List.length_set], ?_, ?_⟩
    · simp only [for_up, hstep, Option.some_bind]
      exact hrun
    · intro t
      rw [hp1 t, getElem_set_cases _ _ _ (by omega), getElem_set_cases _ _ _ (by omega)]
      by_cases h1 : j0 + 1 ≤ t ∧ t < j0 + 1 + c
      · have h2 : j0 ≤ t ∧ t < j0 + (c + 1) := by omega
        have h3 : ¬ t + 1 = j0 := by omega
        simp [h1, h2, h3]
      · by_cases h4 : t = j0
        · subst h4
          have h2 : t ≤ t ∧ t < t + (c + 1) := by omega
          simp [h1, h2, hk1]
        · have h2 : ¬ (j0 ≤ t ∧ t < j0 + (c + 1)) := by omega
          simp [h1, h2, h4]
    · intro t
      rw [hp2 t, getElem_set_cases _ _ _ (by omega), getElem_set_cases _ _ _ (by omega)]
      by_cases h1 : j0 + 1 ≤ t ∧ t < j0 + 1 + c
      · have h2 : j0 ≤ t ∧ t < j0 + (c + 1) := by omega
        have h3 : ¬ t + 1 = j0 := by omega
        simp [h1, h2, h3]
      · by_cases h4 : t = j0
        · subst h4
          have h2 : t ≤ t ∧ t < t + (c + 1) := by omega
          simp [h1, h2, hv1]
        · have h2 : ¬ (j0 ≤ t ∧ t < j0 + (c + 1)) := by omega
          simp [h1, h2, h4]

theorem append_entries_loop (right : BtreeNode) (a lc : Nat) (lch : List (Option BtreeNode)) :
    ∀ (c j0 : Nat) (lk : List Int) (lv : List CharPtr), j0 + c ≤ right.keys.length →
      j0 + c ≤ right.vals.length → a + j0 + c ≤ lk.length → a + j0 + c ≤ lv.length →
      ∃ lk1 lv1, for_up (fun j l => move_entry right j l (j + l.n_keys)) c j0
          (.mk a lc lk lv lch) = some (.mk a lc lk1 lv1 lch) ∧
        lk1.length = lk.length ∧ lv1.length = lv.length ∧
        (∀ t, lk1[t]? = if a + j0 ≤ t ∧ t < a + j0 + c then right.keys[t - a]? else lk[t]?) ∧
        (∀ t, lv1[t]? = if a + j0 ≤ t ∧ t < a + j0 + c then right.vals[t - a]? else lv[t]?) := by
  intro c
  induction c with
  | zero =>
    intro j0 lk lv _ _ _ _
    refine ⟨lk, lv, rfl, rfl, rfl, ?_, ?_⟩ <;>
    · intro t
      rw [if_neg (by omega)]
  | succ c ih =>
    intro j0 lk lv hrk hrv hk hv
    have hk1 : right.keys[j0]? = some right.keys[j0] := List.getElem?_eq_getElem (by omega)
    have hv1 : right.vals[j0]? = some right.vals[j0] := List.getElem?_eq_getElem (by omega)
    have hstep : move_entry right j0 (.mk a lc lk lv lch) (j0 + a) =
        some (.mk a lc (lk.set (j0 + a) right.keys[j0]) (lv.set (j0 + a) right.vals[j0]) lch) :=
      move_entry_eq hk1 hv1 (by omega) (by omega)
    obtain ⟨lk1, lv1, hrun, hl1, hl2, hp1, hp2⟩ :=
      ih (j0 + 1) (lk.set (j0 + a) right.keys[j0]) (lv.set (j0 + a) right.vals[j0])
        (by omega) (by omega) (by rw [List.length_set]; omega) (by rw [List.length_set]; omega)
    refine ⟨lk1, lv1, ?_, by rw [hl1, List.length_set], by rw [hl2, List.length_set], ?_, ?_⟩
    · simp only [for_up, BtreeNode.n_keys, hstep, Option.some_bind]
      exact hrun
    · intro t
      rw [hp1 t, getElem_set_cases _ _ _ (by omega)]
      by_cases h1 : a + (j0 + 1) ≤ t ∧ t < a + (j0 + 1) + c
      · have h2 : a + j0 ≤ t ∧ t < a + j0 + (c + 1) := by omega
        simp [h1, h2]
      · by_cases h4 : t = j0 + a
        · subst h4
          have h2 : a + j0 ≤ j0 + a ∧ j0 + a < a + j0 + (c + 1) := by omega
          simp [h1, h2, hk1]
        · have h2 : ¬ (a + j0 ≤ t ∧ t < a + j0 + (c + 1)) := by omega
          simp [h1, h2, h4]
    · intro t
      rw [hp2 t, getElem_set_cases _ _ _ (by omega)]
      by_cases h1 : a + (j0 + 1) ≤ t ∧ t < a + (j0 + 1) + c
      · have h2 : a + j0 ≤ t ∧ t < a + j0 + (c + 1) := by omega
        simp [h1, h2]
      · by_cases h4 : t = j0 + a
        · subst h4
          have h2 : a + j0 ≤ j0 + a ∧ j0 + a < a + j0 + (c + 1) := by omega
          simp [h1, h2, hv1]
        · have h2 : ¬ (a + j0 ≤ t ∧ t < a + j0 + (c + 1)) := by omega
          simp [h1, h2, h4]

theorem shift_children_loop (nk nc : Nat) (ks : List Int) (vs : List CharPtr) :
    ∀ (c j0 : Nat) (cs : List (Option BtreeNode)), j0 + c < cs.length →
      ∃ cs1, for_up (fun j r => do set_child r j (← get_child r (j + 1))) c j0
          (.mk nk nc ks vs cs) = some (.mk nk nc ks vs cs1) ∧
        cs1.length = cs.length ∧
        (∀ t, cs1[t]? = if j0 ≤ t ∧ t < j0 + c then cs[t + 1]? else cs[t]?) := by
  intro c
  induction c with
  | zero =>
    intro j0 cs _
    refine ⟨cs, rfl, rfl, ?_⟩
    intro t
    rw [if_neg (by omega)]
  | succ c ih =>
    intro j0 cs hc
    have hc1 : cs[j0 + 1]? = some cs[j0 + 1] := List.getElem?_eq_getElem (by omega)
    have hj : j0 < cs.length := by omega
    obtain ⟨cs1, hrun, hl1, hp1⟩ := ih (j0 + 1) (cs.set j0 cs[j0 + 1])
      (by rw [List.length_set]; omega)
    refine ⟨cs1, ?_, by rw [hl1, List.length_set], ?_⟩
    · simp only [for_up, get_child, load, BtreeNode.children, hc1, set_child, store, hj,
        if_true, Option.bind_eq_bind, Option.some_bind, Option.map_some']
      exact hrun
    · intro t
      rw [hp1 t, getElem_set_cases _ _ _ (by omega), getElem_set_cases _ _ _ (by omega)]
      by_cases h1 : j0 + 1 ≤ t ∧ t < j0 + 1 + c
      · have h2 : j0 ≤ t ∧ t < j0 + (c + 1) := by omega
        have h3 : ¬ t + 1 = j0 := by omega
        simp [h1, h2, h3]
      · by_cases h4 : t = j0
        · subst h4
          have h2 : t ≤ t ∧ t < t + (c + 1) := by omega
          simp [h1, h2, hc1]
        · have h2 : ¬ (j0 ≤ t ∧ t < j0 + (c + 1)) := by omega
          simp [h1, h2, h4]

theorem append_children_loop (right : BtreeNode) (a lc : Nat) (lk : List Int)
    (lv : List CharPtr) :
    ∀ (c j0 : Nat) (lch : List (Option BtreeNode)), j0 + c ≤ right.children.length →
      lc + j0 + c ≤ lch.length →
      ∃ lch1, for_up (fun j l => do set_child l (l.n_children + j) (← get_child right j)) c j0
          (.mk a lc lk lv lch) = some (.mk a lc lk lv lch1) ∧
        lch1.length = lch.length ∧
        (∀ t, lch1[t]? =
          if lc + j0 ≤ t ∧ t < lc + j0 + c then right.children[t - lc]? else lch[t]?) := by
  intro c
  induction c with
  | zero =>
    intro j0 lch _ _
    refine ⟨lch, rfl, rfl, ?_⟩
    intro t
    rw [if_neg (by omega)]
  | succ c ih =>
    intro j0 lch hr hl
    have hc1 : right.children[j0]? = some right.children[j0] :=
      List.getElem?_eq_getElem (by omega)
    have hj : lc + j0 < lch.length := by omega
    obtain ⟨lch1, hrun, hl1, hp1⟩ := ih (j0 + 1) (lch.set (lc + j0) right.children[j0])
      (by omega) (by rw [List.length_set]; omega)
    refine ⟨lch1, ?_, by rw [hl1, List.length_set], ?_⟩
    · simp only [for_up, get_child, load, BtreeNode.n_children, hc1, set_child, store, hj,
        if_true, Option.bind_eq_bind, Option.some_bind, Option.map_some']
      exact hrun
    · intro t
      rw [hp1 t, getElem_set_cases _ _ _ (by omega)]
      by_cases h1 : lc + (j0 + 1) ≤ t ∧ t < lc + (j0 + 1) + c
      · have h2 : lc + j0 ≤ t ∧ t < lc + j0 + (c + 1) := by omega
        simp [h1, h2]
      · by_cases h4 : t = lc + j0
        · subst h4
          have h2 : lc + j0 ≤ lc + j0 ∧ lc + j0 < lc + j0 + (c + 1) := by omega
          simp [h1, h2, hc1]
        · have h2 : ¬ (lc + j0 ≤ t ∧ t < lc + j0 + (c + 1)) := by omega
          simp [h1, h2, h4]

theorem take_eq_of_pointwise {α : Type} {l r : List α} {n : Nat} (hlen : r.length = n)
    (h : ∀ t, t < n → l[t]? = r[t]?) : l.take n = r := by
  apply List.ext_getElem?
  intro t
  rw [List.getElem?_take]
  split
  · next ht => exact h t ht
  · next ht => exact (List.getElem?_eq_none (by omega)).symm

theorem shifted_take {α : Type} {l l1 : List α} {n e : Nat} (hn : n ≤ l.length) (he : e < n)
    (hp : ∀ t, l1[t]? = if e ≤ t ∧ t < e + (n - 1 - e) then l[t + 1]? else l[t]?) :
    l1.take (n - 1) = (l.take n).eraseIdx e := by
  apply take_eq_of_pointwise
  · rw [List.length_eraseIdx, List.length_take, Nat.min_eq_left hn, if_pos he]
  · intro t ht
    rw [hp t, List.getElem?_eraseIdx]
    by_cases h : t < e
    · rw [if_neg (by omega), if_pos h, List.getElem?_take_of_lt (by omega)]
    · rw [if_pos (by omega), if_neg h, List.getElem?_take_of_lt (by omega)]

theorem appended_take {α : Type} {l l1 r : List α} {a b : Nat} (ha : a + b ≤ l.length)
    (hb : b ≤ r.length)
    (hp : ∀ t, l1[t]? = if a + 0 ≤ t ∧ t < a + 0 + b then r[t - a]? else l[t]?) :
    l1.take (a + b) = l.take a ++ r.take b := by
  have hla : (l.take a).length = a := by rw [List.length_take]; omega
  apply take_eq_of_pointwise
  · rw [List.length_append, List.length_take, List.length_take]
    omega
  · intro t ht
    rw [hp t, List.getElem?_append, hla]
    by_cases h : t < a
    · rw [if_neg (by omega), if_pos h, List.getElem?_take_of_lt h]
    · rw [if_pos (by omega), if_neg h, List.getElem?_take_of_lt (by omega)]

theorem take_set_last {α : Type} (l : List α) (a : Nat) (s : α) (ha : a < l.length) :
    (l.set a s).take (a + 1) = l.take a ++ [s] := by
  rw [List.take_succ, List.getElem?_set, List.set_take,
    List.set_eq_of_length_le (by rw [List.length_take]; omega)]
  simp [ha]

theorem zip_eraseIdx {α β : Type} : ∀ (l : List α) (r : List β) (e : Nat),
    (l.zip r).eraseIdx e = (l.eraseIdx e).zip (r.eraseIdx e)
  | [], _, _ => by simp
  | _ :: _, [], _ => by simp
  | _ :: _, _ :: _, 0 => by simp
  | _ :: l, _ :: r, e + 1 => by simp [zip_eraseIdx l r e]

theorem node_entries_mk (nk nc : Nat) (ks : List Int) (vs : List CharPtr)
    (cs : List (Option BtreeNode)) :
    node_entries (.mk nk nc ks vs cs) = (ks.take nk).zip (vs.take nk) := by
  simp [node_entries, BtreeNode.keys, BtreeNode.vals, BtreeNode.n_keys, List.zip_eq_zipWith,
    List.take_zipWith]

theorem n_keys_mk (nk nc : Nat) (ks : List Int) (vs : List CharPtr)
    (cs : List (Option BtreeNode)) : (BtreeNode.mk nk nc ks vs cs).n_keys = nk := rfl

theorem n_children_mk (nk nc : Nat) (ks : List Int) (vs : List CharPtr)
    (cs : List (Option BtreeNode)) : (BtreeNode.mk nk nc ks vs cs).n_children = nc := rfl

theorem set_n_keys_mk (nk nc : Nat) (ks : List Int) (vs : List CharPtr)
    (cs : List (Option BtreeNode)) (n : Nat) :
    set_n_keys (.mk nk nc ks vs cs) n = .mk n nc ks vs cs := rfl

theorem set_n_children_mk (nk nc : Nat) (ks : List Int) (vs : List CharPtr)
    (cs : List (Option BtreeNode)) (n : Nat) :
    set_n_children (.mk nk nc ks vs cs) n = .mk nk n ks vs cs := rfl

theorem set_child_mk (nk nc : Nat) (ks : List Int) (vs : List CharPtr)
    (cs : List (Option BtreeNode)) (i : Nat) (c : Option BtreeNode) (h : i < cs.length) :
    set_child (.mk nk nc ks vs cs) i c = some (.mk nk nc ks vs (cs.set i c)) := by
  simp [set_child, store, h]

theorem merge_children_spec {nk nc : Nat} {ks : List Int} {vs : List CharPtr}
    {cs : List (Option BtreeNode)} {a lc : Nat} {lk : List Int} {lv : List CharPtr}
    {lch : List (Option BtreeNode)} {b rc : Nat} {rk : List Int} {rv : List CharPtr}
    {rch : List (Option BtreeNode)} {i e : Nat}
    (he : (if i > 0 then size_sub i 1 else i) = e)
    (hleft : cs[e]? = some (some (.mk a lc lk lv lch)))
    (hright : cs[e + 1]? = some (some (.mk b rc rk rv rch)))
    (hnk : e < nk) (hks : nk ≤ ks.length) (hvs : nk ≤ vs.length)
    (hnc : e + 1 < nc) (hcs : nc ≤ cs.length)
    (hlk : a + 1 + b ≤ lk.length) (hlv : a + 1 + b ≤ lv.length)
    (hrk : b ≤ rk.length) (hrv : b ≤ rv.length)
    (hlch : lc + rc ≤ lch.length) (hrch : rc ≤ rch.length) :
    ∃ ks1 vs1 cs2 lk1 lv1 lch1 sk sv,
      merge_children (.mk nk nc ks vs cs) i = some (.mk (nk - 1) (nc - 1) ks1 vs1 cs2) ∧
      ks[e]? = some sk ∧ vs[e]? = some sv ∧
      cs2[e]? = some (some (.mk (a + 1 + b) (lc + rc) lk1 lv1 lch1)) ∧
      ks1.take (nk - 1) = (ks.take nk).eraseIdx e ∧
      vs1.take (nk - 1) = (vs.take nk).eraseIdx e ∧
      cs2.take (nc - 1) =
        ((cs.take nc).set e (some (.mk (a + 1 + b) (lc + rc) lk1 lv1 lch1))).eraseIdx (e + 1) ∧
      lk1.take (a + 1 + b) = lk.take a ++ sk :: rk.take b ∧
      lv1.take (a + 1 + b) = lv.take a ++ sv :: rv.take b ∧
      lch1.take (lc + rc) = lch.take lc ++ rch.take rc := by
  have hsk : ks[e]? = some ks[e] := List.getElem?_eq_getElem (by omega)
  have hsv : vs[e]? = some vs[e] := List.getElem?_eq_getElem (by omega)
  have hd1 : deref_child (.mk nk nc ks vs cs) e = some (.mk a lc lk lv lch) := by
    simp [deref_child, get_child, load, BtreeNode.children, hleft]
  have hd2 : deref_child (.mk nk nc ks vs cs) (e + 1) = some (.mk b rc rk rv rch) := by
    simp [deref_child, get_child, load, BtreeNode.children, hright]
  have hm1 : move_entry (.mk nk nc ks vs cs) e (.mk a lc lk lv lch) a =
      some (.mk a lc (lk.set a ks[e]) (lv.set a vs[e]) lch) :=
    move_entry_eq hsk hsv (by omega) (by omega)
  obtain ⟨ks1, vs1, hrun1, hl1, hl2, hp1, hp2⟩ :=
    shift_entries_loop nk nc cs (nk - 1 - e) e ks vs (by omega) (by omega)
  obtain ⟨lk1, lv1, hrun2, hl3, hl4, hp3, hp4⟩ :=
    append_entries_loop (.mk b rc rk rv rch) (a + 1) lc lch b 0 (lk.set a ks[e])
      (lv.set a vs[e]) (by simpa [BtreeNode.keys] using hrk) (by simpa [BtreeNode.vals] using hrv)
      (by rw [List.length_set]; omega) (by rw [List.length_set]; omega)
  obtain ⟨lch1, hrun3, hl5, hp5⟩ :=
    append_children_loop (.mk b rc rk rv rch) (a + 1 + b) lc lk1 lv1 rc 0 lch
      (by simpa [BtreeNode.children] using hrch) (by omega)
  obtain ⟨cs2, hrun4, hl6, hp6⟩ :=
    shift_children_loop (nk - 1) nc ks1 vs1 (nc - 1 - (e + 1)) (e + 1)
      (cs.set e (some (.mk (a + 1 + b) (lc + rc) lk1 lv1 lch1)))
      (by rw [List.length_set]; omega)
  have hs1 : size_sub nk 1 = nk - 1 := size_sub_of_le (by omega)
  have hs2 : size_sub nc 1 = nc - 1 := size_sub_of_le (by omega)
  have hecs : e < cs.length := by omega
  simp only [Option.bind_eq_bind] at hrun3 hrun4
  refine ⟨ks1, vs1, cs2, lk1, lv1, lch1, ks[e], vs[e], ?_, hsk, hsv, ?_, ?_, ?_, ?_, ?_, ?_, ?_⟩
  · simp only [merge_children, he, hd1, hd2, Option.bind_eq_bind, Option.some_bind,
      n_keys_mk, n_children_mk, hm1, set_n_keys_mk, set_n_children_mk, hs1, hs2, hrun1,
      hrun2, hrun3, set_child_mk _ _ _ _ _ _ _ hecs, hrun4, Option.pure_def]
  · rw [hp6 e, if_neg (by omega), List.getElem?_set]
    simp [hecs]
  · exact shifted_take hks hnk hp1
  · exact shifted_take hvs hnk hp2
  · rw [← List.set_take]
    exact shifted_take (by rw [List.length_set]; exact hcs) hnc hp6
  · have h := appended_take (by rw [List.length_set]; omega) hrk hp3
    rw [take_set_last _ _ _ (by omega)] at h
    rw [h]
    simp
  · have h := appended_take (by rw [List.length_set]; omega) hrv hp4
    rw [take_set_last _ _ _ (by omega)] at h
    rw [h]
    simp
  · exact appended_take hlch hrch hp5

theorem node_children_mk (nk nc : Nat) (ks : List Int) (vs : List CharPtr)
    (cs : List (Option BtreeNode)) : node_children (.mk nk nc ks vs cs) = cs.take nc := rfl

theorem deref_child_mk {nk nc : Nat} {ks : List Int} {vs : List CharPtr}
    {cs : List (Option BtreeNode)} {i : Nat} {c : BtreeNode} :
    deref_child (.mk nk nc ks vs cs) i = some c ↔ cs[i]? = some (some c) := by
  simp only [deref_child, get_child, load, BtreeNode.children]
  cases cs[i]? <;> simp [Option.join]

theorem rebalance_child_merges {root child : BtreeNode} {max_keys i : Nat}
    (hchild : deref_child root i = some child) (hdef : child.n_keys < max_keys / 2)
    (hr : i < size_sub root.n_children 1 →
      ∃ r, deref_child root (i + 1) = some r ∧ r.n_keys ≤ max_keys / 2)
    (hl : i > 0 → ∃ l, deref_child root (size_sub i 1) = some l ∧ l.n_keys ≤ max_keys / 2) :
    rebalance_child root max_keys i = merge_children root i := by
  have h1 : ¬ child.n_keys ≥ max_keys / 2 := by omega
  simp only [rebalance_child, hchild, Option.bind_eq_bind, Option.some_bind, h1, if_false]
  by_cases c1 : i < size_sub root.n_children 1
  · obtain ⟨r, hr1, hr2⟩ := hr c1
    have hr3 : ¬ r.n_keys > max_keys / 2 := by omega
    by_cases c2 : i > 0
    · obtain ⟨l, hl1, hl2⟩ := hl c2
      have hl3 : ¬ l.n_keys > max_keys / 2 := by omega
      simp only [if_pos c1, if_pos c2, hr1, hl1, Option.map_some', Option.some_bind,
        decide_eq_true_eq, hr3, hl3, if_false, Bool.false_eq_true]
    · simp only [if_pos c1, if_neg c2, hr1, Option.map_some', Option.some_bind,
        decide_eq_true_eq, hr3, if_false, Bool.false_eq_true]
  · by_cases c2 : i > 0
    · obtain ⟨l, hl1, hl2⟩ := hl c2
      have hl3 : ¬ l.n_keys > max_keys / 2 := by omega
      simp only [if_neg c1, if_pos c2, hl1, Option.map_some', Option.some_bind,
        decide_eq_true_eq, hl3, if_false, Bool.false_eq_true,
        Option.some_bind]
    · simp only [if_neg c1, if_neg c2, Option.some_bind, Bool.false_eq_true, if_false]

theorem node_shape_mk {nk nc : Nat} {ks : List Int} {vs : List CharPtr}
    {cs : List (Option BtreeNode)} {max_keys : Nat}
    (h : node_shape (.mk nk nc ks vs cs) max_keys = true) :
    ks.length = max_keys ∧ vs.length = max_keys ∧ cs.length = max_keys + 1 ∧
      (nc = 0 ∨ nc = nk + 1) := by
  simpa [node_shape, BtreeNode.keys, BtreeNode.vals, BtreeNode.children, BtreeNode.n_keys,
    BtreeNode.n_children, and_assoc] using h

theorem min_sibling_spec {root child : BtreeNode} {max_keys j : Nat}
    (h : min_sibling root max_keys child j = true) :
    ∃ s, deref_child root j = some s ∧ node_shape s max_keys = true ∧
      s.n_keys = max_keys / 2 ∧ (s.n_children = 0 ↔ child.n_children = 0) := by
  unfold min_sibling at h
  cases hs : deref_child root j with
  | none => simp [hs] at h
  | some s =>
    simp only [hs, Bool.and_eq_true, decide_eq_true_eq, beq_iff_eq] at h
    refine ⟨s, rfl, h.1.1, h.1.2, ?_⟩
    have h2 := h.2
    by_cases h3 : s.n_children = 0 <;> by_cases h4 : child.n_children = 0 <;>
      simp [h3, h4] at h2 ⊢

theorem merge_conclusion {max_keys : Nat} {nk nc : Nat} {ks : List Int} {vs : List CharPtr}
    {cs : List (Option BtreeNode)} {left right : BtreeNode} {i e : Nat}
    (he : (if i > 0 then size_sub i 1 else i) = e)
    (hleft : deref_child (.mk nk nc ks vs cs) e = some left)
    (hright : deref_child (.mk nk nc ks vs cs) (e + 1) = some right)
    (hsl : node_shape left max_keys = true) (hsr : node_shape right max_keys = true)
    (hkind : left.n_children = 0 ↔ right.n_children = 0)
    (hsum : left.n_keys + 1 + right.n_keys ≤ max_keys)
    (hnk : e < nk) (hks : nk ≤ ks.length) (hvs : nk ≤ vs.length)
    (hnc : e + 1 < nc) (hcs : nc ≤ cs.length) :
    ∃ root2 merged sep,
      merge_children (.mk nk nc ks vs cs) i = some root2 ∧
      (node_entries (.mk nk nc ks vs cs))[e]? = some sep ∧
      deref_child root2 e = some merged ∧
      node_entries merged = node_entries left ++ sep :: node_entries right ∧
      node_children merged = node_children left ++ node_children right ∧
      merged.n_keys ≤ max_keys ∧
      root2.n_keys + 1 = nk ∧ root2.n_children + 1 = nc ∧
      node_entries root2 = (node_entries (.mk nk nc ks vs cs)).eraseIdx e ∧
      node_children root2 =
        ((node_children (.mk nk nc ks vs cs)).set e (some merged)).eraseIdx (e + 1) := by
  cases left with
  | mk a lc lk lv lch =>
  cases right with
  | mk b rc rk rv rch =>
  obtain ⟨hl1, hl2, hl3, hl4⟩ := node_shape_mk hsl
  obtain ⟨hr1, hr2, hr3, hr4⟩ := node_shape_mk hsr
  simp only [n_keys_mk, n_children_mk] at hkind hsum
  obtain ⟨ks1, vs1, cs2, lk1, lv1, lch1, sk, sv, hrun, hsk, hsv, hm, hk1, hv1, hc2, hlk1, hlv1,
      hlch1⟩ :=
    merge_children_spec he (deref_child_mk.1 hleft) (deref_child_mk.1 hright) hnk hks hvs hnc hcs
      (by omega) (by omega) (by omega) (by omega) (by omega) (by omega)
  refine ⟨_, _, (sk, sv), hrun, ?_, deref_child_mk.2 hm, ?_, ?_, ?_, ?_, ?_, ?_, ?_⟩
  · rw [node_entries_mk, List.getElem?_zip_eq_some]
    exact ⟨by rw [List.getElem?_take_of_lt hnk]; exact hsk,
      by rw [List.getElem?_take_of_lt hnk]; exact hsv⟩
  · rw [node_entries_mk, node_entries_mk, node_entries_mk, hlk1, hlv1,
      List.zip_append (by rw [List.length_take, List.length_take]; omega), List.zip_cons_cons]
  · rw [node_children_mk, node_children_mk, node_children_mk, hlch1]
  · rw [n_keys_mk]
    exact hsum
  · rw [n_keys_mk]
    omega
  · rw [n_children_mk]
    omega
  · rw [node_entries_mk, node_entries_mk, hk1, hv1, zip_eraseIdx]
  · rw [node_children_mk, node_children_mk, hc2]

/-! ## Evaluation of the code on concrete runs -/

theorem insert_pairs_chain {t t1 t2 : Btree} {l1 l2 : List (Int × CharPtr)}
    (h1 : insert_pairs t l1 = some t1) (h2 : insert_pairs t1 l2 = some t2) :
    insert_pairs t (l1 ++ l2) = some t2 := by
  induction l1 generalizing t with
  | nil =>
    simp only [insert_pairs, Option.some.injEq] at h1
    subst h1
    simpa using h2
  | cons p l1 ih =>
    obtain ⟨k, v⟩ := p
    simp only [List.cons_append, insert_pairs] at h1 ⊢
    cases hb : btree_insert t k v with
    | none => simp [hb] at h1
    | some t0 =>
      simp only [hb, Option.some_bind] at h1 ⊢
      exact ih h1

theorem delete_keys_chain {t t1 t2 : Btree} {l1 l2 : List Int}
    (h1 : delete_keys t l1 = some t1) (h2 : delete_keys t1 l2 = some t2) :
    delete_keys t (l1 ++ l2) = some t2 := by
  induction l1 generalizing t with
  | nil =>
    simp only [delete_keys, Option.some.injEq] at h1
    subst h1
    simpa using h2
  | cons k l1 ih =>
    simp only [List.cons_append, delete_keys] at h1 ⊢
    cases hb : btree_delete t k with
    | none => simp [hb] at h1
    | some t0 =>
      simp only [hb, Option.some_bind] at h1 ⊢
      exact ih h1

theorem asc4_reached :
    insert_pairs (make_btree 2) [(1, some "1"), (2, some "2"), (3, some "3"), (4, some "4")] =
      some tree_asc4 := by rfl

theorem asc6_step : insert_pairs tree_asc4 [(5, some "5"), (6, some "6")] = some tree_asc6 := by
  rfl

theorem asc7_step : insert_pairs tree_asc6 [(7, some "7")] = some tree_asc7 := by rfl

theorem asc7_reached :
    insert_pairs (make_btree 2) [(1, some "1"), (2, some "2"), (3, some "3"), (4, some "4"),
      (5, some "5"), (6, some "6"), (7, some "7")] = some tree_asc7 := by
  have h := insert_pairs_chain (insert_pairs_chain asc4_reached asc6_step) asc7_step
  simp only [List.cons_append, List.nil_append] at h
  exact h

theorem m2_reached :
    insert_pairs (make_btree 2) [(5, some "5"), (10, some "10"), (20, some "20"),
      (6, some "6")] = some tree_m2 := by rfl

theorem m1_reached :
    insert_pairs (make_btree 1) [(1, some "1"), (2, some "2")] = some tree_m1 := by rfl

theorem m4_full_reached :
    insert_pairs (make_btree 4) [(10, some "10"), (20, some "20"), (30, some "30"),
      (40, some "40")] = some tree_m4_full := by rfl

theorem m4_step : insert_pairs tree_m4_full [(50, some "50"), (25, some "25")] =
    some tree_m4 := by rfl

theorem m4_reached :
    insert_pairs (make_btree 4) [(10, some "10"), (20, some "20"), (30, some "30"),
      (40, some "40"), (50, some "50"), (25, some "25")] = some tree_m4 := by
  have h := insert_pairs_chain m4_full_reached m4_step
  simp only [List.cons_append, List.nil_append] at h
  exact h

theorem m4_del50 : btree_delete tree_m4 50 = some tree_m4_del50 := by rfl

theorem m4_del50_step : delete_keys tree_m4 [50] = some tree_m4_del50 := by rfl

theorem m4_del40_10 : delete_keys tree_m4_del50 [40, 10] = some tree_m4_del10 := by rfl

theorem m4_del_rest : delete_keys tree_m4_del10 [20, 25, 30] = some tree_m4_end := by rfl

theorem m4_del_all : delete_keys tree_m4 [50, 40, 10, 20, 25, 30] = some tree_m4_end := by
  have h := delete_keys_chain m4_del50_step (delete_keys_chain m4_del40_10 m4_del_rest)
  simp only [List.cons_append, List.nil_append] at h
  exact h

/-! ## Composition of calls -/

theorem btree_insert_first {m : Nat} {k : Int} {v : CharPtr} {n : BtreeNode}
    (h : btree_make_node m k v = some n) :
    btree_insert { max_keys := m, root := none } k v = some { max_keys := m, root := some n } := by
  simp [btree_insert, h]

theorem btree_insert_same_root {m : Nat} {root root1 : BtreeNode} {k : Int} {v : CharPtr}
    (h : node_insert root m k v = some (root1, none)) :
    btree_insert { max_keys := m, root := some root } k v =
      some { max_keys := m, root := some root1 } := by
  simp [btree_insert, h]

theorem btree_insert_new_root {m : Nat} {root root1 node : BtreeNode} {k : Int} {v : CharPtr}
    (h : node_insert root m k v = some (root1, some node)) :
    btree_insert { max_keys := m, root := some root } k v =
      some { max_keys := m, root := some node } := by
  simp [btree_insert, h]

theorem insert_pairs_cons {t t1 : Btree} {k : Int} {v : CharPtr} {rest : List (Int × CharPtr)}
    (h : btree_insert t k v = some t1) :
    insert_pairs t ((k, v) :: rest) = insert_pairs t1 rest := by
  simp [insert_pairs, h]

theorem delete_and_rebalance_done {root root1 : BtreeNode} {max_keys : Nat} {key ret : Int}
    (h : recursive_delete root max_keys key = some (root1, ret, none)) :
    delete_and_rebalance root max_keys key = some (root1, ret) := by
  simp [delete_and_rebalance, h]

theorem btree_delete_keeps_root {m : Nat} {root root1 : BtreeNode} {key ret : Int}
    (h : delete_and_rebalance root m key = some (root1, ret)) (hn : root1.n_keys ≠ 0) :
    btree_delete { max_keys := m, root := some root } key =
      some { max_keys := m, root := some root1 } := by
  simp [btree_delete, h, hn]

/-! ## The scenario of Section 8 with `max_keys = 2` -/

theorem scenario_step1 (v : Int → String) :
    btree_make_node 2 10 (some (v 10)) = some (scenario_root1 v) := by rfl

theorem scenario_step2 (v : Int → String) :
    node_insert (scenario_root1 v) 2 20 (some (v 20)) = some (scenario_root2 v, none) := by rfl

theorem scenario_step3 (v : Int → String) :
    node_insert (scenario_root2 v) 2 5 (some (v 5)) =
      some (.mk 1 0 [5, 20] [some (v 5), some (v 20)] [none, none, none],
        some (scenario_root3 v)) := by rfl

theorem scenario_step4 (v : Int → String) :
    node_insert (scenario_root3 v) 2 6 (some (v 6)) = some (scenario_root4 v, none) := by rfl

theorem scenario_step5 (v : Int → String) :
    node_insert (scenario_root4 v) 2 12 (some (v 12)) = some (scenario_root5 v, none) := by rfl

theorem scenario_step6 (v : Int → String) :
    node_insert (scenario_root5 v) 2 30 (some (v 30)) = some (scenario_root6 v, none) := by rfl

theorem scenario_step7 (v : Int → String) :
    node_insert (scenario_root6 v) 2 7 (some (v 7)) =
      some (scenario_left7 v, some (scenario_root7 v)) := by rfl

theorem scenario_step8 (v : Int → String) :
    node_insert (scenario_root7 v) 2 17 (some (v 17)) = some (scenario_root8 v, none) := by rfl

theorem scenario_reached (v : Int → String) :
    insert_pairs (make_btree 2) [(10, some (v 10)), (20, some (v 20)), (5, some (v 5)),
      (6, some (v 6)), (12, some (v 12)), (30, some (v 30)), (7, some (v 7)),
      (17, some (v 17))] = some { max_keys := 2, root := some (scenario_root8 v) } :=
  (insert_pairs_cons (btree_insert_first (scenario_step1 v))).trans
  ((insert_pairs_cons (btree_insert_same_root (scenario_step2 v))).trans
  ((insert_pairs_cons (btree_insert_new_root (scenario_step3 v))).trans
  ((insert_pairs_cons (btree_insert_same_root (scenario_step4 v))).trans
  ((insert_pairs_cons (btree_insert_same_root (scenario_step5 v))).trans
  ((insert_pairs_cons (btree_insert_same_root (scenario_step6 v))).trans
  ((insert_pairs_cons (btree_insert_new_root (scenario_step7 v))).trans
  (insert_pairs_cons (btree_insert_same_root (scenario_step8 v)))))))))

theorem scenario_step9 (v : Int → String) :
    recursive_delete (scenario_root8 v) 2 20 = some (scenario_root9 v, 0, none) := by rfl

theorem scenario_delete (v : Int → String) :
    btree_delete { max_keys := 2, root := some (scenario_root8 v) } 20 =
      some { max_keys := 2, root := some (scenario_root9 v) } :=
  btree_delete_keeps_root (delete_and_rebalance_done (scenario_step9 v))
    (by simp [scenario_root9, BtreeNode.n_keys])

/-! ## Trees with a single entry -/

theorem make_btree_eq (n : Nat) :
    make_btree n = { max_keys := (n - 1) + 1, root := none } := by
  unfold make_btree
  by_cases h : n < 1
  · have : n = 0 := by omega
    subst this
    rfl
  · have e : n - 1 + 1 = n := by omega
    simp [h, e]

theorem btree_make_node_succ (p : Nat) (k : Int) (v : CharPtr)
    (h : node_bytes_fit (p + 1) = true) :
    btree_make_node (p + 1) k v =
      some (.mk 1 0 (k :: List.replicate p 0) (v :: List.replicate p none)
        (List.replicate (p + 2) none)) := by
  have h1 : 32 + 8 * (p + 1 + 1) ≤ 18446744073709551615 := by
    simpa [node_bytes_fit, SIZEOF_NODE, SIZEOF_PTR, SIZE_MAX] using h
  have hb : node_bytes (p + 1) = 32 + 8 * (p + 2) := by
    unfold node_bytes size_wrap SIZEOF_NODE SIZEOF_PTR SIZE_MAX
    omega
  have hc : size_wrap (p + 1 + 1) = p + 2 := by
    unfold size_wrap SIZE_MAX
    omega
  have hk : size_wrap (SIZEOF_INT * (p + 1)) / SIZEOF_INT = p + 1 := by
    unfold size_wrap SIZEOF_INT SIZE_MAX
    omega
  have hv : size_wrap (SIZEOF_PTR * (p + 1)) / SIZEOF_PTR = p + 1 := by
    unfold size_wrap SIZEOF_PTR SIZE_MAX
    omega
  have hcells : (32 + 8 * (p + 2) - SIZEOF_NODE) / SIZEOF_PTR = p + 2 := by
    unfold SIZEOF_NODE SIZEOF_PTR
    omega
  have hlt : ¬ 32 + 8 * (p + 2) < SIZEOF_NODE := by
    unfold SIZEOF_NODE
    omega
  simp [btree_make_node, hb, hc, hk, hv, hcells, hlt, set_key, set_val, store,
    List.replicate_succ]

theorem size_sub_self_one : size_sub 1 1 = 0 := by rfl

theorem delete_only_key (p : Nat) (k : Int) (v : CharPtr) :
    btree_delete { max_keys := p + 1, root := some (.mk 1 0 (k :: List.replicate p 0)
      (v :: List.replicate p none) (List.replicate (p + 2) none)) } k =
        some { max_keys := p + 1, root := none } := by
  have hrec : recursive_delete (.mk 1 0 (k :: List.replicate p 0)
      (v :: List.replicate p none) (List.replicate (p + 2) none)) (p + 1) k =
        some (.mk 0 0 (k :: List.replicate p 0) (v :: List.replicate p none)
          (List.replicate (p + 2) none), 0, if 0 < (p + 1) / 2 then some k else none) := by
    have hleaf : delete_from_leaf (.mk 1 0 (k :: List.replicate p 0)
        (v :: List.replicate p none) (List.replicate (p + 2) none)) (p + 1) k 0 =
          some (.mk 0 0 (k :: List.replicate p 0) (v :: List.replicate p none)
            (List.replicate (p + 2) none), 0, if 0 < (p + 1) / 2 then some k else none) := by
      simp [delete_from_leaf, BtreeNode.n_keys, size_sub_self_one, for_up, set_n_keys]
    rw [recursive_delete]
    simp [key_scan, key_at, load, hleaf]
  have hreb : ∀ k2, node_rebalance (.mk 0 0 (k :: List.replicate p 0)
      (v :: List.replicate p none) (List.replicate (p + 2) none)) (p + 1) k2 =
        some (.mk 0 0 (k :: List.replicate p 0) (v :: List.replicate p none)
          (List.replicate (p + 2) none)) := by
    intro k2
    rw [node_rebalance]
    simp
  by_cases hp : 0 < (p + 1) / 2
  · simp [btree_delete, delete_and_rebalance, hrec, hp, hreb, BtreeNode.n_keys,
      BtreeNode.n_children]
  · simp [btree_delete, delete_and_rebalance, hrec, hp, BtreeNode.n_keys,
      BtreeNode.n_children]

theorem search_only_key (p : Nat) (k : Int) (v : CharPtr) :
    search (.mk 1 0 (k :: List.replicate p 0) (v :: List.replicate p none)
      (List.replicate (p + 2) none)) k = some v := by
  rw [search]
  simp [search_scan, load]

/-! ## The claims -/

/-- C1 (fails on the code): with `make_btree(2)` and the pairwise distinct keys 1 to 7 inserted
in ascending order with non-null values, `btree_search` of the inserted key 7 returns `NULL`,
while the claim says it returns the value inserted with 7. -/
theorem insert_ascending_loses_key :
    (insert_pairs (make_btree 2) [(1, some "1"), (2, some "2"), (3, some "3"), (4, some "4"),
      (5, some "5"), (6, some "6"), (7, some "7")]).bind (fun t => btree_search t 7) =
        some none := by
  rw [asc7_reached]
  decide

/-- C2: on every tree that satisfies the ordering invariant, a key held by some node is stored
with a value, `btree_search` returns the value stored with the key, and it returns `NULL` for a
key that no node holds. -/
theorem btree_search_correct (tree : Btree) (key : Int) (h : tree_ordered tree = true) :
    (key ∈ tree_keys tree → ∃ v, (key, v) ∈ tree_entries tree) ∧
      (∀ v, (key, v) ∈ tree_entries tree → btree_search tree key = some v) ∧
      (key ∉ tree_keys tree → btree_search tree key = some none) := by
  obtain ⟨m, root⟩ := tree
  cases root with
  | none => simp [tree_keys, tree_entries, btree_search]
  | some root =>
    simp only [tree_ordered] at h
    simp only [tree_keys, tree_entries, btree_search]
    exact ⟨keys_entries root h key, (search_node_correct key root h).1,
      (search_node_correct key root h).2⟩

/-- Witness of C2 on the tree reached by inserting 5, 10, 20, 6 with `max_keys = 2`: the search
for the held key 6 returns its value and the search for the absent key 7 returns `NULL`. -/
theorem btree_search_correct_witness :
    tree_ordered tree_m2 = true ∧ btree_search tree_m2 6 = some (some "6") ∧
      btree_search tree_m2 7 = some none :=
  ⟨by decide, (btree_search_correct tree_m2 6 (by decide)).2.1 (some "6") (by decide),
    (btree_search_correct tree_m2 7 (by decide)).2.2 (by decide)⟩

/-- C3: when the descent of `btree_search` reaches an entry with the key, `btree_insert` of that
key with any value returns the tree as it was (same root, and in every node the same keys,
values, children and counts), so that `btree_search` of the key gives what it gave before. -/
theorem btree_insert_existing_unchanged (tree : Btree) (key : Int) (val : CharPtr)
    (h : tree_reaches tree key = true) :
    btree_insert tree key val = some tree ∧
      (btree_insert tree key val).bind (fun t => btree_search t key) =
        btree_search tree key := by
  have h1 : btree_insert tree key val = some tree := by
    obtain ⟨m, root⟩ := tree
    cases root with
    | none => simp [tree_reaches] at h
    | some root =>
      simp only [tree_reaches] at h
      simp [btree_insert, node_insert_present m key val root h]
  exact ⟨h1, by rw [h1]; rfl⟩

/-- Witness of C3 on the tree reached by inserting 5, 10, 20, 6 with `max_keys = 2`: a second
insert of key 6 with another value changes nothing. -/
theorem btree_insert_existing_unchanged_witness :
    tree_reaches tree_m2 6 = true ∧ btree_insert tree_m2 6 (some "other") = some tree_m2 :=
  ⟨by decide, (btree_insert_existing_unchanged tree_m2 6 (some "other") (by decide)).1⟩

/-- C4: `btree_delete` on an empty tree returns the tree as it was; on a tree that satisfies the
Section 3 invariants, for a key held by no node, `btree_delete` returns the tree as it was and
`recursive_delete` on the root returns -1 with the root unchanged and no call of
`node_rebalance`. -/
theorem btree_delete_absent_unchanged (tree : Btree) (key : Int) :
    (tree.root = none → btree_delete tree key = some tree) ∧
      (section3_inv tree = true → key ∉ tree_keys tree →
        btree_delete tree key = some tree ∧
          ∀ root, tree.root = some root →
            recursive_delete root tree.max_keys key = some (root, -1, none)) := by
  obtain ⟨m, root⟩ := tree
  cases root with
  | none =>
    refine ⟨fun _ => rfl, fun _ _ => ⟨rfl, ?_⟩⟩
    intro root hr
    cases hr
  | some root =>
    refine ⟨fun hr => ?_, ?_⟩
    · simp at hr
    intro hinv habs
    simp only [section3_inv, Bool.and_eq_true, decide_eq_true_eq] at hinv
    obtain ⟨_, ⟨hord, hcnt⟩, _⟩ := hinv
    simp only [tree_keys] at habs
    have hrec := recursive_delete_absent m key root hord habs
    have hnk : root.n_keys ≠ 0 := by
      cases root with
      | mk nk nc ks vs cs =>
        rw [counts_ok] at hcnt
        simp only [Bool.and_eq_true, decide_eq_true_eq, if_true] at hcnt
        have : 1 ≤ nk := hcnt.1.1.2
        simp only [BtreeNode.n_keys]
        omega
    refine ⟨?_, ?_⟩
    · simp [btree_delete, delete_and_rebalance, hrec, hnk]
    · intro r hr
      simp only [Option.some.injEq] at hr
      subst hr
      exact hrec

/-- Witness of C4 on the empty tree and on the tree reached by inserting 5, 10, 20, 6 with
`max_keys = 2`, for the absent key 7. -/
theorem btree_delete_absent_unchanged_witness :
    (make_btree 2).root = none ∧ btree_delete (make_btree 2) 7 = some (make_btree 2) ∧
      section3_inv tree_m2 = true ∧ 7 ∉ tree_keys tree_m2 ∧
      btree_delete tree_m2 7 = some tree_m2 :=
  ⟨rfl, (btree_delete_absent_unchanged (make_btree 2) 7).1 rfl, by decide, by decide,
    ((btree_delete_absent_unchanged tree_m2 7).2 (by decide) (by decide)).1⟩

/-- C5 (fails on the code): the tree reached with `max_keys = 4` by inserting 10, 20, 30, 40,
50, 25 (non-null values) satisfies the Section 3 invariants and holds 50; after
`btree_delete` of 50, `btree_search` of 50 still returns its value, and `btree_search` of the
other key 40, found before, returns `NULL`. -/
theorem delete_borrow_left_loses_entry :
    insert_pairs (make_btree 4) [(10, some "10"), (20, some "20"), (30, some "30"),
        (40, some "40"), (50, some "50"), (25, some "25")] = some tree_m4 ∧
      section3_inv tree_m4 = true ∧ 50 ∈ tree_keys tree_m4 ∧
      (btree_delete tree_m4 50).bind (fun t => btree_search t 50) = some (some "50") ∧
      btree_search tree_m4 40 = some (some "40") ∧
      (btree_delete tree_m4 50).bind (fun t => btree_search t 40) = some none := by
  refine ⟨m4_reached, by decide, by decide, ?_, by decide, ?_⟩
  · rw [m4_del50]
    decide
  · rw [m4_del50]
    decide

/-- C6 (fails on the code): with `make_btree(4)`, after the inserts 10, 20, 30, 40, 50, 25 and
one `btree_delete` for each of the six keys in the order 50, 40, 10, 20, 25, 30, the root is
not `NULL`: it is a leaf with one entry, the key 50. -/
theorem insert_delete_all_not_empty :
    ((insert_pairs (make_btree 4) [(10, some "10"), (20, some "20"), (30, some "30"),
        (40, some "40"), (50, some "50"), (25, some "25")]).bind
      (fun t => delete_keys t [50, 40, 10, 20, 25, 30])).map
        (fun t => (t.root.isSome, tree_keys t)) = some (true, [50]) := by
  rw [m4_reached, Option.some_bind, m4_del_all]
  decide

/-- C7 (fails on the code): with `make_btree(3)`, after the inserts 10, 20, 5 the root holds the
keys 5, 10, 10: they do not ascend strictly and the key 10 occurs twice. -/
theorem insert_breaks_ascending :
    (insert_pairs (make_btree 3) [(10, some "10"), (20, some "20"), (5, some "5")]).map
      (fun t => (t.root.map nodes_ascending, tree_keys t, decide (tree_keys t).Nodup)) =
        some (some false, [5, 10, 10], false) := by
  decide

/-- C8 (fails on the code): with `make_btree(2)`, after the inserts 1 to 7 the second child of
the root has `n_children = 2` while its child slot 1 is `NULL`, so the leaves are not all at the
same depth. -/
theorem insert_leaves_null_child :
    (insert_pairs (make_btree 2) [(1, some "1"), (2, some "2"), (3, some "3"), (4, some "4"),
      (5, some "5"), (6, some "6"), (7, some "7")]).map
        (fun t => (t.root.map same_depth,
          t.root.bind (fun r => (deref_child r 1).bind
            (fun b => (get_child b 1).map (fun c => (b.n_children, c.isSome)))))) =
      some (some false, some (2, false)) := by
  rw [asc7_reached]
  decide

/-- C9 (fails on the code): the tree reached with `max_keys = 1` by inserting 1, 2 satisfies the
Section 3 invariants, and `btree_insert` of key 3 into it leaves defined behaviour: the split of
the root writes slot 2 of a `children` array that has 2 slots.  With `max_keys = 2` the tree
reached by inserting 1 to 7 satisfies the count invariants in every node, and `btree_insert` of
key 8 into it dereferences the `NULL` child slot that the same store left behind. -/
theorem insert_split_out_of_bounds :
    insert_pairs (make_btree 1) [(1, some "1"), (2, some "2")] = some tree_m1 ∧
      section3_inv tree_m1 = true ∧ btree_insert tree_m1 3 (some "3") = none ∧
      tree_asc7.root.map (fun r => counts_ok r 2 true) = some true ∧
      btree_insert tree_asc7 8 (some "8") = none :=
  ⟨m1_reached, by decide, by rfl, by decide, by rfl⟩

/-- C10 (fails on the code): the tree reached with `max_keys = 2` by inserting 5, 10, 20, 6
satisfies the Section 3 invariants and holds 20, and `btree_delete` of 20 leaves defined
behaviour: the borrow from the left sibling starts its shift loop at index `0 - 1` of `size_t`
and moves entries outside the arrays of the child. -/
theorem delete_borrow_left_faults :
    insert_pairs (make_btree 2) [(5, some "5"), (10, some "10"), (20, some "20"),
        (6, some "6")] = some tree_m2 ∧
      section3_inv tree_m2 = true ∧ 20 ∈ tree_keys tree_m2 ∧ btree_delete tree_m2 20 = none :=
  ⟨m2_reached, by decide, by decide, by rfl⟩

/-- C11: with `make_btree(2)` and any non-null values `v`, the inserts 10, 20, 5, 6, 12, 30, 7,
17 in that order reach the tree `scenario_tree v`, in which `btree_search` finds each of the
eight keys with its value (6 among them) and all leaves are at the same depth; `btree_delete` of
20 then reaches `scenario_tree_del20 v`, in which `btree_search` of 20 returns `NULL` and each of
the remaining seven keys is found with its value. -/
theorem scenario_insert_search_delete (v : Int → String) :
    insert_pairs (make_btree 2) [(10, some (v 10)), (20, some (v 20)), (5, some (v 5)),
        (6, some (v 6)), (12, some (v 12)), (30, some (v 30)), (7, some (v 7)),
        (17, some (v 17))] = some (scenario_tree v) ∧
      [10, 20, 5, 6, 12, 30, 7, 17].map (btree_search (scenario_tree v)) =
        [10, 20, 5, 6, 12, 30, 7, 17].map (fun k => some (some (v k))) ∧
      (scenario_tree v).root.map same_depth = some true ∧
      btree_delete (scenario_tree v) 20 = some (scenario_tree_del20 v) ∧
      btree_search (scenario_tree_del20 v) 20 = some none ∧
      [10, 5, 6, 12, 30, 7, 17].map (btree_search (scenario_tree_del20 v)) =
        [10, 5, 6, 12, 30, 7, 17].map (fun k => some (some (v k))) :=
  ⟨scenario_reached v, by rfl, by rfl, scenario_delete v, by rfl, by rfl⟩

/-- C12 (fails on the code): with `make_btree(1)` the inserts 1, 2, 3, 4, 5 leave defined
behaviour at the third call already: the inserts 1, 2 reach `tree_m1`, and the insert of 3
splits the root and stores a child pointer in slot 2 of a `children` array of 2 slots. -/
theorem scenario_max1_faults :
    insert_pairs (make_btree 1) [(1, some "1"), (2, some "2")] = some tree_m1 ∧
      insert_pairs (make_btree 1) [(1, some "1"), (2, some "2"), (3, some "3")] = none ∧
      insert_pairs (make_btree 1) [(1, some "1"), (2, some "2"), (3, some "3"),
        (4, some "4"), (5, some "5")] = none :=
  ⟨m1_reached, by rfl, by rfl⟩

/-- C13 (amended): for every requested size `n` whose node block has a byte size that does not
wrap in `size_t` (so for every `max_keys` from 1 to `2^61 - 6`), every key `k` and non-null value
`v`: the insert of `(k, v)` into the fresh tree gives a tree from which `btree_delete` of `k`
gives the empty tree again (root `NULL`); a following insert of any `(k2, v2)` gives a tree whose
root is a leaf that holds exactly the entry `(k2, v2)`, and `btree_search` of `k2` returns
`v2`. -/
theorem single_key_delete_then_insert (n : Nat) (k k2 : Int) (v v2 : String)
    (hfit : node_bytes_fit (make_btree n).max_keys = true) :
    ∃ t1 leaf,
      btree_insert (make_btree n) k (some v) = some t1 ∧
      btree_delete t1 k = some (make_btree n) ∧
      (make_btree n).root = none ∧
      btree_insert (make_btree n) k2 (some v2) =
        some { max_keys := (make_btree n).max_keys, root := some leaf } ∧
      leaf.n_children = 0 ∧ leaf.n_keys = 1 ∧ node_entries leaf = [(k2, some v2)] ∧
      btree_search { max_keys := (make_btree n).max_keys, root := some leaf } k2 =
        some (some v2) := by
  rw [make_btree_eq n] at hfit ⊢
  refine ⟨_, _, btree_insert_first (btree_make_node_succ (n - 1) k (some v) hfit),
    delete_only_key (n - 1) k (some v), rfl,
    btree_insert_first (btree_make_node_succ (n - 1) k2 (some v2) hfit), rfl, rfl, ?_, ?_⟩
  · simp [node_entries, BtreeNode.keys, BtreeNode.vals, BtreeNode.n_keys]
  · exact search_only_key (n - 1) k2 (some v2)

/-- Witness of C13 (amended) at the size 3: the entry `(7, "a")` is inserted and deleted, then
`(9, "b")` is inserted. -/
theorem single_key_delete_then_insert_witness :
    node_bytes_fit (make_btree 3).max_keys = true ∧
      ∃ t1 leaf,
        btree_insert (make_btree 3) 7 (some "a") = some t1 ∧
        btree_delete t1 7 = some (make_btree 3) ∧
        (make_btree 3).root = none ∧
        btree_insert (make_btree 3) 9 (some "b") =
          some { max_keys := (make_btree 3).max_keys, root := some leaf } ∧
        leaf.n_children = 0 ∧ leaf.n_keys = 1 ∧ node_entries leaf = [(9, some "b")] ∧
        btree_search { max_keys := (make_btree 3).max_keys, root := some leaf } 9 =
          some (some "b") :=
  ⟨by decide, single_key_delete_then_insert 3 7 9 "a" "b" (by decide)⟩

/-- Counterexample of C13 as stated: `max_keys = 2^61` is at least 1 and `make_btree` keeps it,
but the byte size of a node, `32 + 8 * (2^61 + 1)`, wraps to 40 in `size_t`: the block has one
cell of `children`, the loop of `btree_make_node` stores into `2^61 + 1` cells, and the insert of
`(7, "a")` into the fresh tree does not produce a tree. -/
theorem single_key_insert_size_wraps :
    1 ≤ (make_btree 2305843009213693952).max_keys ∧
      (make_btree 2305843009213693952).max_keys = 2305843009213693952 ∧
      node_bytes 2305843009213693952 = 40 ∧
      size_wrap (2305843009213693952 + 1) = 2305843009213693953 ∧
      btree_make_node 2305843009213693952 7 (some "a") = none ∧
      btree_insert (make_btree 2305843009213693952) 7 (some "a") = none :=
  ⟨by decide, by rfl, by rfl, by rfl, by rfl, by rfl⟩

/-- C14: for every requested size `n`, `make_btree(n)` returns a tree with root `NULL`, with
`max_keys = n` when `n >= 1` and `max_keys = 1` when `n < 1`, hence with `max_keys >= 1`, and
`btree_search` on it returns `NULL` for every key. -/
theorem make_btree_clamps (n : Nat) (key : Int) :
    (make_btree n).root = none ∧ (1 ≤ n → (make_btree n).max_keys = n) ∧
      (n < 1 → (make_btree n).max_keys = 1) ∧ 1 ≤ (make_btree n).max_keys ∧
      btree_search (make_btree n) key = some none := by
  refine ⟨rfl, ?_, ?_, ?_, rfl⟩
  · intro h
    have : ¬ n < 1 := by omega
    simp [make_btree, this]
  · intro h
    simp [make_btree, h]
  · unfold make_btree
    by_cases h : n < 1
    · simp [h]
    · simp only [h, if_false]
      omega

/-- Witness of C14 at the sizes 3 and 0. -/
theorem make_btree_clamps_witness :
    1 ≤ 3 ∧ (make_btree 3).max_keys = 3 ∧ 0 < 1 ∧ (make_btree 0).max_keys = 1 :=
  ⟨by decide, (make_btree_clamps 3 0).2.1 (by decide), by decide,
    (make_btree_clamps 0 0).2.2.1 (by decide)⟩

/-- C15 (fails on the code): the full leaf 10, 20, 30, 40, 50 (`max_keys = 5`) is reached by
five inserts; `node_insert` of the key 60 (sorted position 5) pushes up 30, the element at
position `5 / 2 = 2` of the combined sequence, and leaves 10, 20 in the original node, but the
new sibling holds 50, 50, 60 where the claim says 40, 50, 60. -/
theorem leaf_split_loses_entry :
    insert_pairs (make_btree 5) [(10, some "10"), (20, some "20"), (30, some "30"),
        (40, some "40"), (50, some "50")] = some { max_keys := 5, root := some leaf_m5 } ∧
      (node_insert leaf_m5 5 60 (some "60")).map (fun r => r.2) = some (some split_m5) ∧
      node_entries split_m5 = [(30, some "30")] ∧
      (deref_child split_m5 0).map node_entries = some [(10, some "10"), (20, some "20")] ∧
      (deref_child split_m5 1).map node_entries =
        some [(50, some "50"), (50, some "50"), (60, some "60")] :=
  ⟨by rfl, by rfl, by rfl, by rfl, by rfl⟩

/-- C16 (fails on the code): in `tree_asc6` (`max_keys = 2`) the root is a full internal node
with the children `c0, c1, c2`; the insert of 7 splits `c2` into the leaves 5 and 7 and then
splits the root with `idx = 2`.  The original node keeps `c0, c1`, but the counted children of
the new sibling are the leaf 5 and `NULL`: the leaf 7 is stored in slot 2, outside the
`n_children = 2` counted slots. -/
theorem internal_split_misplaces_child :
    btree_insert tree_asc6 7 (some "7") = some tree_asc7 ∧
      (tree_asc7.root.bind (fun r => deref_child r 0)).map
          (fun l => (node_children l).map (Option.map node_entries)) =
        some [some [(1, some "1")], some [(3, some "3")]] ∧
      (tree_asc7.root.bind (fun r => deref_child r 1)).map
          (fun s => (node_children s).map (Option.map node_entries)) =
        some [some [(5, some "5")], none] ∧
      (tree_asc7.root.bind (fun r => deref_child r 1)).map
          (fun s => (s.children.map (Option.map node_entries))) =
        some [some [(5, some "5")], none, some [(7, some "7")]] :=
  ⟨by rfl, by rfl, by rfl, by rfl⟩

/-- C17 (fails on the code): the leaf 10, 20 with `max_keys = 3` has room; `node_insert` of the
key 5 (sorted position 0) leaves it with the three entries 5, 10, 10: the entry 20 has not kept
its place, it is overwritten by a copy of the entry 10. -/
theorem leaf_insert_overwrites_entry :
    insert_pairs (make_btree 3) [(10, some "10"), (20, some "20")] =
        some { max_keys := 3, root := some leaf_m3 } ∧
      (node_insert leaf_m3 3 5 (some "5")).map (fun r => (node_entries r.1, r.2.isSome)) =
        some ([(5, some "5"), (10, some "10"), (10, some "10")], false) :=
  ⟨by rfl, by rfl⟩

/-- C18 (fails on the code): in `node_m4_deficient` (`max_keys = 4`) child 1 holds the single
entry 40, it has no right sibling and its left sibling holds 3 entries.  After
`node_rebalance` the separator is the former last entry 25 of the left sibling and the left
sibling has lost it, but the child holds 30, 50 where the claim says 30, 40: its former entry 40
is overwritten and a stale cell is counted. -/
theorem borrow_left_drops_entry :
    tree_m4.root.bind (fun r => recursive_delete r 4 50) =
        some (node_m4_deficient, 0, some 50) ∧
      (deref_child node_m4_deficient 1).map node_entries = some [(40, some "40")] ∧
      node_rebalance node_m4_deficient 4 50 = some node_m4_rebalanced ∧
      node_entries node_m4_rebalanced = [(25, some "25")] ∧
      (deref_child node_m4_rebalanced 0).map node_entries =
        some [(10, some "10"), (20, some "20")] ∧
      (deref_child node_m4_rebalanced 1).map node_entries =
        some [(30, some "30"), (50, some "50")] :=
  ⟨by rfl, by rfl, by rfl, by rfl, by rfl, by rfl⟩

/-- C19: let `root1` be the parent `root` as the recursive call of line 365 on its child `i`
leaves it, `i` being the index at which the scan for `key` stops.  If `root1` is an internal node with `n_keys + 1` children, its child `i` holds `max_keys / 2 - 1` entries and each
existing immediate sibling holds exactly `max_keys / 2` entries, then `node_rebalance` returns a
node `root2` such that, with `leftIdx = i - 1` for `i > 0` and `leftIdx = i` otherwise: the node
in slot `leftIdx` of `root2` holds the entries of the former node in slot `leftIdx`, then the
former entry `leftIdx` of the parent, then the entries of the former node in slot `leftIdx + 1`,
and its children are the children of the former followed by those of the latter; it has at most
`max_keys` entries; the parent has one entry and one child fewer, its entries are the former ones
with entry `leftIdx` removed and its children the former ones with slot `leftIdx` holding the
merged node and slot `leftIdx + 1` removed. -/
theorem node_rebalance_merge (max_keys : Nat) (key : Int) (nk nc : Nat) (ks : List Int)
    (vs : List CharPtr) (cs cs1 : List (Option BtreeNode)) (i : Nat)
    (hscan : key_scan ks key nk 0 = some i)
    (hrec : node_rebalance_at cs i max_keys key = some cs1)
    (hcase : merge_case (.mk nk nc ks vs cs1) max_keys i = true) :
    ∃ root2 left right merged sep,
      node_rebalance (.mk nk nc ks vs cs) max_keys key = some root2 ∧
      deref_child (.mk nk nc ks vs cs1) (if i > 0 then i - 1 else i) = some left ∧
      deref_child (.mk nk nc ks vs cs1) ((if i > 0 then i - 1 else i) + 1) = some right ∧
      (node_entries (.mk nk nc ks vs cs1))[if i > 0 then i - 1 else i]? = some sep ∧
      deref_child root2 (if i > 0 then i - 1 else i) = some merged ∧
      node_entries merged = node_entries left ++ sep :: node_entries right ∧
      node_children merged = node_children left ++ node_children right ∧
      merged.n_keys ≤ max_keys ∧
      root2.n_keys + 1 = nk ∧ root2.n_children + 1 = nc ∧
      node_entries root2 =
        (node_entries (.mk nk nc ks vs cs1)).eraseIdx (if i > 0 then i - 1 else i) ∧
      node_children root2 =
        ((node_children (.mk nk nc ks vs cs1)).set (if i > 0 then i - 1 else i)
          (some merged)).eraseIdx ((if i > 0 then i - 1 else i) + 1) := by
  unfold merge_case at hcase
  cases hchild : deref_child (.mk nk nc ks vs cs1) i with
  | none => simp [hchild] at hcase
  | some child =>
    simp only [hchild, Bool.and_eq_true, Bool.or_eq_true, decide_eq_true_eq, n_keys_mk,
      n_children_mk] at hcase
    obtain ⟨⟨⟨⟨hshape, hnk1⟩, hnkm⟩, hncnk⟩, ⟨⟨hcshape, hdef⟩, hleft⟩, hright⟩ := hcase
    obtain ⟨hks, hvs, hcs, _⟩ := node_shape_mk hshape
    obtain ⟨p, hp1, _, hp3, _, _⟩ := key_scan_spec ks key nk 0 (by omega)
    rw [hscan] at hp1
    cases hp1
    have hnc0 : ¬ nc = 0 := by omega
    have hs : size_sub nc 1 = nc - 1 := size_sub_of_le (by omega)
    have hmerge : node_rebalance (.mk nk nc ks vs cs) max_keys key =
        merge_children (.mk nk nc ks vs cs1) i := by
      have hdef2 : child.n_keys < max_keys / 2 := by omega
      rw [← rebalance_child_merges hchild hdef2 ?_ ?_]
      · simp only [node_rebalance, hnc0, if_false, hscan, hrec]
      · intro h
        rw [n_children_mk, hs] at h
        rcases hright with h2 | h2
        · omega
        · obtain ⟨s, hs1, _, hs3, _⟩ := min_sibling_spec h2
          exact ⟨s, hs1, by omega⟩
      · intro h
        rcases hleft with h2 | h2
        · omega
        · obtain ⟨s, hs1, _, hs3, _⟩ := min_sibling_spec h2
          exact ⟨s, by rw [size_sub_of_le (by omega)]; exact hs1, by omega⟩
    by_cases hi : i > 0
    · have he : (if i > 0 then size_sub i 1 else i) = i - 1 := by
        rw [if_pos hi, size_sub_of_le (by omega)]
      rcases hleft with h2 | h2
      · omega
      · obtain ⟨s, hs1, hs2, hs3, hs4⟩ := min_sibling_spec h2
        have hchild1 : deref_child (.mk nk nc ks vs cs1) (i - 1 + 1) = some child := by
          rw [Nat.sub_add_cancel (by omega)]
          exact hchild
        obtain ⟨root2, merged, sep, h⟩ := merge_conclusion he hs1 hchild1 hs2 hcshape hs4
          (by omega) (by omega) (by omega) (by omega) (by omega) (by omega)
        rw [← hmerge] at h
        simp only [if_pos hi]
        exact ⟨root2, s, child, merged, sep, h.1, hs1, hchild1, h.2⟩
    · have hi0 : i = 0 := by omega
      subst hi0
      have he : (if 0 > 0 then size_sub 0 1 else 0) = 0 := by simp
      rcases hright with h2 | h2
      · omega
      · obtain ⟨s, hs1, hs2, hs3, hs4⟩ := min_sibling_spec h2
        obtain ⟨root2, merged, sep, h⟩ := merge_conclusion he hchild hs1 hcshape hs2 hs4.symm
          (by omega) (by omega) (by omega) (by omega) (by omega) (by omega)
        rw [← hmerge] at h
        simp only [if_neg hi]
        exact ⟨root2, child, s, merged, sep, h.1, hchild, hs1, h.2⟩

/-- Witness of C19 with `max_keys = 2` on the node with the keys 2 and 4 whose leaves hold 1,
nothing and 5, for the key 3: the middle leaf is merged into the first one. -/
theorem node_rebalance_merge_witness :
    key_scan [2, 4] 3 2 0 = some 1 ∧
    node_rebalance_at children_m2_deficient 1 2 3 = some children_m2_deficient ∧
    merge_case (.mk 2 3 [2, 4] [some "2", some "4"] children_m2_deficient) 2 1 = true ∧
    ∃ root2 left right merged sep,
      node_rebalance (.mk 2 3 [2, 4] [some "2", some "4"] children_m2_deficient) 2 3 =
        some root2 ∧
      deref_child (.mk 2 3 [2, 4] [some "2", some "4"] children_m2_deficient)
        (if 1 > 0 then 1 - 1 else 1) = some left ∧
      deref_child (.mk 2 3 [2, 4] [some "2", some "4"] children_m2_deficient)
        ((if 1 > 0 then 1 - 1 else 1) + 1) = some right ∧
      (node_entries (.mk 2 3 [2, 4] [some "2", some "4"] children_m2_deficient))[
        if 1 > 0 then 1 - 1 else 1]? = some sep ∧
      deref_child root2 (if 1 > 0 then 1 - 1 else 1) = some merged ∧
      node_entries merged = node_entries left ++ sep :: node_entries right ∧
      node_children merged = node_children left ++ node_children right ∧
      merged.n_keys ≤ 2 ∧
      root2.n_keys + 1 = 2 ∧ root2.n_children + 1 = 3 ∧
      node_entries root2 =
        (node_entries (.mk 2 3 [2, 4] [some "2", some "4"] children_m2_deficient)).eraseIdx
          (if 1 > 0 then 1 - 1 else 1) ∧
      node_children root2 =
        ((node_children (.mk 2 3 [2, 4] [some "2", some "4"] children_m2_deficient)).set
          (if 1 > 0 then 1 - 1 else 1) (some merged)).eraseIdx
          ((if 1 > 0 then 1 - 1 else 1) + 1) :=
  ⟨by rfl, by rfl, by rfl,
    node_rebalance_merge 2 3 2 3 [2, 4] [some "2", some "4"] children_m2_deficient
      children_m2_deficient 1 (by rfl) (by rfl) (by rfl)⟩

/-- C20 (fails on the code): `tree_m1` (`max_keys = 1`) satisfies the Section 3 invariants;
`btree_make_node` allocates 2 cells of `children`, and a store into cell 2 of a fresh node is
outside the allocation.  In `btree_insert` of the key 3 the call of `node_insert` on child 1
returns a pushed up node, the call of `node_split` on the root with that node and `idx = 1`
makes that store (at `children[idx - min_keys + 1]` with `min_keys = 0`), and the insert does not
stay inside the arrays. -/
theorem insert_index_out_of_bounds :
    section3_inv tree_m1 = true ∧
      (btree_make_node 1 INT_MAX none).map (fun n => n.children.length) = some 2 ∧
      (btree_make_node 1 INT_MAX none).bind (fun n => set_child n (1 - 1 / 2 + 1) none) = none ∧
      (tree_m1.root.bind fun r => node_insert_at r.children 1 1 3 (some "3")).map
        (fun p => p.2.isSome) = some true ∧
      (tree_m1.root.bind fun r => (node_insert_at r.children 1 1 3 (some "3")).bind
        fun p => p.2.map fun node =>
          (node_split (.mk r.n_keys r.n_children r.keys r.vals p.1) 1 node 1).isSome) =
        some false ∧
      btree_insert tree_m1 3 (some "3") = none :=
  ⟨by decide, by rfl, by rfl, by rfl, by rfl, by rfl⟩

end BtreeEngine
